import Mathlib

/-!
Verification of the pyROSe scheduling core.

This file is a shallow embedding, in Lean 4, of the orchestration core of the
pyROSe robot-control framework:

* `src/architecture/architecture_relationships.py` — `Message`, `Subscriber`,
  `Topic`, `SystemTimeTopic` and the `Command` family (`Command`,
  `DynamicCommand`, `ParallelCommand`, `DelayCommand`);
* `src/architecture/scheduler.py` — `Scheduler.initialize`,
  `Scheduler.periodic`, `Scheduler.advance_command`,
  `Scheduler.check_topic_name_collision`, `Scheduler.begin_log`,
  `Scheduler.init_hardware`.

Modelling conventions:

* Python floats (timestamps, delays) are modelled as rationals `ℚ`; the
  successive `time.time()` calls made inside one scheduler tick are modelled
  as returning the same instant (the tick's time).
* Python objects of the `Command` family live in a store (`CmdStore`, a list
  indexed by position) and reference each other by index, mirroring Python's
  reference semantics (a command can appear in several chains, and chains can
  become cyclic).
* Python attribute errors matter for this code base: `Scheduler.periodic`
  reads the attribute `first_run_occured` (sic) although every command
  constructor only ever sets `first_run_occurred`, and
  `ParallelCommand.__init__` does not call `Command.__init__`, so a
  `ParallelCommand` object has no `next_command` attribute at all.  Attribute
  reads are therefore modelled explicitly and can raise `PyErr.attributeError`.
* Exceptions are modelled with `Except PyErr`; unbounded Python loops
  (`Command.setNext`'s chain walk, recursion through command references) take
  fuel and report `PyErr.nonTermination` when it runs out — in Python those
  executions simply do not terminate.
* The collaborators that the repository imports but whose sources are not in
  `src/` (`pyros_math.graph_theory`'s `dependecy_sort` and
  `cycle_is_present_in_any`, and `topicLogUtil`'s log parsing) are modelled
  from the specification's contract for them; each such definition carries a
  doc comment starting with "Modelled from the spec:".
-/

/-- Python exception kinds raised (or modelled) by the embedded code. -/
inductive PyErr where
  /-- AttributeError: an object attribute that was never assigned is read. -/
  | attributeError
  /-- TypeError: e.g. `Message` built from a non-dict, `setNext` given a
  non-Command, or arithmetic on `None` (`DelayCommand.is_complete` before
  `first_run`). -/
  | typeError
  /-- KeyError: dictionary lookup misses (replay log missing a topic name). -/
  | keyError
  /-- RuntimeError raised by `Scheduler.init_hardware` on a hardware failure. -/
  | runtimeHardware
  /-- RuntimeError raised by `check_topic_name_collision` for two topics with
  the same name. -/
  | topicNameCollision
  /-- RuntimeError raised by `check_topic_name_collision` for a topic and a
  subscriber with the same name. -/
  | subscriberNameCollision
  /-- TopicCircularDependency raised by `Scheduler.initialize`. -/
  | circularDependency
  /-- Exception raised in simulation mode when no log file name was given. -/
  | missingLogFile
  /-- Model artifact: a command id that resolves to no store entry.  Cannot
  happen for stores built from actual Python object graphs. -/
  | danglingId
  /-- Model artifact: fuel ran out; the Python original does not terminate. -/
  | nonTermination
  deriving DecidableEq, Repr

/-- Values stored in a message dictionary (payload fields are opaque to the
scheduling core; numbers, strings, booleans and None cover the uses). -/
inductive PyLit where
  | num (q : ℚ)
  | str (s : String)
  | boolean (b : Bool)
  | pyNone
  deriving DecidableEq, Repr

/-- A Python dictionary with string keys, as used for message payloads.
Assignment replaces the first entry with the key or appends a new one. -/
abbrev PyDict := List (String × PyLit)

/-- A Python value as seen by the runtime type checks of the embedded code:
either a dict, a Command object (identified by its store index), or some
other scalar.  `Message.__init__` tests `type(message) != dict`;
`Command.setNext` tests `isinstance(next_command, Command)`. -/
inductive PyVal where
  | dict (d : PyDict)
  | cmd (id : Nat)
  | str (s : String)
  | int (n : Int)
  | pyNone
  deriving DecidableEq, Repr

/-- Whether a `PyVal` is a dict, as `type(message) != dict` decides it. -/
def PyVal.isDict : PyVal → Bool
  | .dict _ => true
  | _ => false

/-- The dict payload of a `PyVal` (empty for non-dicts; only read under
`isDict`). -/
def PyVal.getDict : PyVal → PyDict
  | .dict d => d
  | _ => []

/-- Whether a `PyVal` is a `Command` instance, as `isinstance(next_command,
Command)` decides it. -/
def PyVal.isCmd : PyVal → Bool
  | .cmd _ => true
  | _ => false

/-- `Message` (architecture_relationships.py lines 61–78): a dictionary plus
the creation timestamp `time.time()` captured at construction. -/
structure Message where
  message : PyDict
  time_stamp : ℚ
  deriving DecidableEq, Repr

/-- `Message.__init__` (lines 68–72): stores the payload, raises `TypeError`
when `type(message) != dict`, and stamps the creation time.  `now` is the
value `time.time()` returns at construction. -/
def message_construct (payload : PyVal) (now : ℚ) : Except PyErr Message :=
  match payload with
  | .dict d => .ok { message := d, time_stamp := now }
  | _ => .error .typeError

/-! ## The Command family

Commands are Python objects referencing each other; we model the object heap
as a list `CmdStore` and commands as indices into it. -/

/-- The concrete command kinds of architecture_relationships.py.  `Command`
and `DynamicCommand` are abstract (their `first_run_behavior` and `periodic`
are user-supplied); `base` stands for a minimal user command whose scripted
behavior is "complete after `remaining` further `periodic` calls", with a
no-op `first_run_behavior` — enough to instantiate the abstract base.  A
`DynamicCommand`'s registered pair is modelled as the Boolean the supplier
returns (suppliers are modelled for the usual case of pairwise-distinct
supplier objects, so the `command_condition_pairs` dict lookup keyed on the
supplier returns that pair's command) together with the successor's id. -/
inductive CmdKind where
  | base (remaining : Nat)
  | dynamic (conditions : List (Bool × Nat))
  | parallel (commands : List Nat)
  | delay (delay_time : ℚ) (start_time : Option ℚ)
  deriving DecidableEq, Repr

/-- A command object.  `Command.__init__` (lines 85–88) sets
`next_command = None` and `first_run_occurred = False`.
`ParallelCommand.__init__` (lines 169–177) does NOT call `Command.__init__`:
a `ParallelCommand` object never has a `next_command` attribute, which is why
reads of `next_command` go through `getNextAttr` below rather than reading
the field directly. -/
structure CmdNode where
  next_command : Option Nat
  first_run_occurred : Bool
  kind : CmdKind
  deriving DecidableEq, Repr

/-- The Python heap of command objects, indexed by position. -/
abbrev CmdStore := List CmdNode

/-- Dereference a command id. -/
def storeGet (s : CmdStore) (i : Nat) : Except PyErr CmdNode :=
  match s[i]? with
  | some n => .ok n
  | none => .error .danglingId

/-- Overwrite the node at a command id. -/
def storeSet (s : CmdStore) (i : Nat) (n : CmdNode) : CmdStore :=
  s.set i n

/-- Reading the Python attribute `next_command`.  Every constructor in the
`Command` family sets it except `ParallelCommand.__init__`, which skips
`Command.__init__`; reading it on a `ParallelCommand` raises
`AttributeError`.  (No code path assigns `next_command` on a
`ParallelCommand` before reading it, so the read-error model is faithful.) -/
def getNextAttr (s : CmdStore) (i : Nat) : Except PyErr (Option Nat) := do
  let n ← storeGet s i
  match n.kind with
  | .parallel _ => .error .attributeError
  | _ => .ok n.next_command

/-- Reading a Boolean attribute of a command object by name.  The only
Boolean flag any constructor of the family sets is `first_run_occurred`
(lines 88, 177, 215); any other name raises `AttributeError`. -/
def boolAttr (n : CmdNode) (attr : String) : Except PyErr Bool :=
  if attr = "first_run_occurred" then .ok n.first_run_occurred
  else .error .attributeError

/-- The condition walk of `DynamicCommand.is_complete` (lines 158–162): scan
the registered suppliers in order, return the successor of the first one that
returns true, together with how many suppliers were called (the scan stops at
the first match, so later suppliers are never called). -/
def dynWalk : List (Bool × Nat) → Option Nat × Nat
  | [] => (none, 0)
  | (b, nid) :: rest =>
    if b then (some nid, 1)
    else
      let r := dynWalk rest
      (r.1, r.2 + 1)

/-- The `while` loop of `Command.setNext` (lines 129–132): walk to the tail
of the chain starting at `last`, then append `nid` there.  Python loops
forever on a cyclic chain; the fuel models that as `nonTermination`. -/
def setNextWalk (s : CmdStore) (last nid : Nat) : Nat → Except PyErr CmdStore
  | 0 => .error .nonTermination
  | fuel + 1 => do
    let nx ← getNextAttr s last
    match nx with
    | none => do
        let n ← storeGet s last
        .ok (storeSet s last { n with next_command := some nid })
    | some nxt => setNextWalk s nxt nid fuel

/-- `Command.setNext` (lines 117–134): reject non-Command arguments with
`TypeError`; install directly when there is no successor; otherwise append
at the tail of the existing chain.  (The Python method returns `self`; the
model returns the updated heap.) -/
def setNext (s : CmdStore) (self : Nat) (arg : PyVal) (fuel : Nat) :
    Except PyErr CmdStore :=
  match arg with
  | .cmd nid => do
      let nx ← getNextAttr s self
      match nx with
      | none => do
          let n ← storeGet s self
          .ok (storeSet s self { n with next_command := some nid })
      | some first => setNextWalk s first nid fuel
  | _ => .error .typeError

mutual

/-- `Command.first_run` (lines 90–93): run `first_run_behavior` once, guarded
by the `first_run_occurred` flag. -/
def cmdFirstRun : Nat → ℚ → CmdStore → Nat → Except PyErr CmdStore
  | 0, _, _, _ => .error .nonTermination
  | fuel + 1, tU, s, cid => do
    let n ← storeGet s cid
    if n.first_run_occurred then .ok s
    else do
      let s1 ← cmdFirstRunBehavior fuel tU s cid
      let n1 ← storeGet s1 cid
      .ok (storeSet s1 cid { n1 with first_run_occurred := true })

/-- `first_run_behavior` of each concrete kind.  `base` and `dynamic` stand
for user implementations of the abstract method and are modelled as no-ops;
`DelayCommand.first_run_behavior` (lines 218–220) captures the time topic's
current `"Unix"` reading `tU` into `start_time` and sets the flag;
`ParallelCommand.first_run_behavior` (lines 179–182) calls `first_run` on
every child and sets the flag. -/
def cmdFirstRunBehavior : Nat → ℚ → CmdStore → Nat → Except PyErr CmdStore
  | 0, _, _, _ => .error .nonTermination
  | fuel + 1, tU, s, cid => do
    let n ← storeGet s cid
    match n.kind with
    | .base _ => .ok s
    | .dynamic _ => .ok s
    | .delay d _ =>
        .ok (storeSet s cid
          { n with kind := .delay d (some tU), first_run_occurred := true })
    | .parallel cs => do
        let s1 ← firstRunList fuel tU s cs
        let n1 ← storeGet s1 cid
        .ok (storeSet s1 cid { n1 with first_run_occurred := true })

/-- The loop of `ParallelCommand.first_run_behavior` (lines 180–181). -/
def firstRunList : Nat → ℚ → CmdStore → List Nat → Except PyErr CmdStore
  | 0, _, _, _ => .error .nonTermination
  | _ + 1, _, s, [] => .ok s
  | fuel + 1, tU, s, c :: cs => do
    let s1 ← cmdFirstRun fuel tU s c
    firstRunList fuel tU s1 cs

/-- `periodic` of each concrete kind.  `base` ticks its script down;
`dynamic` stands for a user implementation (no-op);
`DelayCommand.periodic` (lines 222–223) is `pass`;
`ParallelCommand.periodic` (lines 184–191) runs the per-child loop. -/
def cmdPeriodic : Nat → ℚ → CmdStore → Nat → Except PyErr CmdStore
  | 0, _, _, _ => .error .nonTermination
  | fuel + 1, tU, s, cid => do
    let n ← storeGet s cid
    match n.kind with
    | .base r => .ok (storeSet s cid { n with kind := .base (r - 1) })
    | .dynamic _ => .ok s
    | .delay _ _ => .ok s
    | .parallel cs => parLoop fuel tU s cid cs.length 0

/-- The loop body of `ParallelCommand.periodic` (lines 185–191):
`for i, command in enumerate(self.commands)`; per child, if
`command.is_complete() and command.next_command` (note: `is_complete` runs
first and may have side effects; `None` is falsy; the attribute read can
raise) then `self.commands[i] = command.next_command` followed by
`self.commands[i].first_run()`, else `command.periodic()`.  `count` is the
number of children left to visit, `i` the current index. -/
def parLoop : Nat → ℚ → CmdStore → Nat → Nat → Nat → Except PyErr CmdStore
  | 0, _, _, _, _, _ => .error .nonTermination
  | _ + 1, _, s, _, 0, _ => .ok s
  | fuel + 1, tU, s, pid, count + 1, i => do
    let n ← storeGet s pid
    match n.kind with
    | .parallel cs =>
      match cs[i]? with
      | none => .ok s
      | some c => do
        let r ← cmdIsComplete fuel tU s c
        if r.1 then do
          let nx ← getNextAttr r.2 c
          match nx with
          | some nid => do
            let n1 ← storeGet r.2 pid
            match n1.kind with
            | .parallel cs1 => do
              let s2 := storeSet r.2 pid { n1 with kind := .parallel (cs1.set i nid) }
              let s3 ← cmdFirstRun fuel tU s2 nid
              parLoop fuel tU s3 pid count (i + 1)
            | _ => .error .danglingId
          | none => do
            let s2 ← cmdPeriodic fuel tU r.2 c
            parLoop fuel tU s2 pid count (i + 1)
        else do
          let s2 ← cmdPeriodic fuel tU r.2 c
          parLoop fuel tU s2 pid count (i + 1)
    | _ => .error .danglingId

/-- `is_complete` of each concrete kind.  `base`: the script's answer;
`DynamicCommand.is_complete` (lines 154–162): first matching supplier wins,
its successor is handed to `setNext`, result `True`, else `False`;
`DelayCommand.is_complete` (lines 225–226):
`timer.message["Unix"] - start_time >= delay` — before `first_run` the
`start_time` is `None` and the subtraction raises `TypeError`;
`ParallelCommand.is_complete` (lines 193–195):
`all(command.is_complete() for command in self.commands)` (short-circuits).
`tU` is the shared time topic's current `"Unix"` reading. -/
def cmdIsComplete : Nat → ℚ → CmdStore → Nat → Except PyErr (Bool × CmdStore)
  | 0, _, _, _ => .error .nonTermination
  | fuel + 1, tU, s, cid => do
    let n ← storeGet s cid
    match n.kind with
    | .base r => .ok (r == 0, s)
    | .dynamic conds =>
      match (dynWalk conds).1 with
      | some nid => do
          let s1 ← setNext s cid (.cmd nid) fuel
          .ok (true, s1)
      | none => .ok (false, s)
    | .delay d st =>
      match st with
      | none => .error .typeError
      | some st0 => .ok (decide (tU - st0 ≥ d), s)
    | .parallel cs => allCompleteLoop fuel tU s cs

/-- The generator expression of `ParallelCommand.is_complete` (line 195),
with `all`'s short-circuit evaluation. -/
def allCompleteLoop : Nat → ℚ → CmdStore → List Nat → Except PyErr (Bool × CmdStore)
  | 0, _, _, _ => .error .nonTermination
  | _ + 1, _, s, [] => .ok (true, s)
  | fuel + 1, tU, s, c :: cs => do
    let r ← cmdIsComplete fuel tU s c
    if r.1 then allCompleteLoop fuel tU r.2 cs
    else .ok (false, r.2)

end

/-- The nil-terminated chain reachable from `cid` through `next_command`
reads: `some [cid, …, last]` when the walk reaches a command with
`next_command = None` within the fuel, `none` on an attribute error, a
dangling id or fuel exhaustion (a cyclic chain). -/
def chainOf (s : CmdStore) : Nat → Nat → Option (List Nat)
  | 0, _ => none
  | fuel + 1, cid =>
    match getNextAttr s cid with
    | .error _ => none
    | .ok none => some [cid]
    | .ok (some nxt) => (chainOf s fuel nxt).map (cid :: ·)

/-! ## Scheduler: the command phase of `periodic` -/

/-- The scheduler state relevant to the command phase of
`Scheduler.periodic`. -/
structure SchedCmdState where
  root_command : Option Nat
  store : CmdStore
  printed : List String
  deriving DecidableEq, Repr

/-- Lines 54–63 of scheduler.py, the command phase of `Scheduler.periodic`:

    if not self.root_command is None and not self.root_command.first_run_occured:
        self.root_command.first_run()
    self.advance_command()
    if self.root_command is not None:
        self.root_command.periodic()
    else:
        print("No further command to execute")

Note the attribute read on line 54 is of `first_run_occured` — one `r` —
while every command constructor sets `first_run_occurred`; the read is kept
verbatim and resolved through `boolAttr`.  `advance_command` (lines 43–45)
is inlined: if the root exists and reports complete, the root becomes its
`next_command`. -/
def scheduler_command_phase (fuel : Nat) (tU : ℚ) (st : SchedCmdState) :
    Except PyErr SchedCmdState :=
  match st.root_command with
  | none =>
      .ok { st with printed := st.printed ++ ["No further command to execute"] }
  | some rid => do
      let n ← storeGet st.store rid
      let flag ← boolAttr n "first_run_occured"
      let s1 ← if flag then pure st.store else cmdFirstRun fuel tU st.store rid
      let r ← cmdIsComplete fuel tU s1 rid
      let root2 ← if r.1 then getNextAttr r.2 rid else pure (some rid)
      match root2 with
      | some r2 => do
          let s3 ← cmdPeriodic fuel tU r.2 r2
          .ok { root_command := some r2, store := s3, printed := st.printed }
      | none =>
          .ok { root_command := none, store := r.2,
                printed := st.printed ++ ["No further command to execute"] }

/-! ## Subscribers and Topics -/

/-- `Subscriber` (architecture_relationships.py lines 7–58): holds the map
from topic name to the latest `Message` received.  `hardware_ok` models the
result the user's `initialize_hardware` override reports (the base class
returns `True`). -/
structure Subscriber where
  name : String
  messages : List (String × Message)
  is_sim : Bool
  hardware_ok : Bool
  deriving DecidableEq, Repr

/-- Python dict assignment `d[k] = v`: replace the first entry with that key
or append a new one. -/
def dictSet {β : Type} (l : List (String × β)) (k : String) (v : β) :
    List (String × β) :=
  match l with
  | [] => [(k, v)]
  | (k', v') :: rest =>
    if k' = k then (k, v) :: rest else (k', v') :: dictSet rest k v

/-- `Subscriber.store_messages` (lines 47–48). -/
def store_messages (sub : Subscriber) (topic_name : String) (m : Message) :
    Subscriber :=
  { sub with messages := dictSet sub.messages topic_name m }

/-- `Topic` (lines 229–297).  Topics reference their subscribers; since the
scheduler and the topics share the very same subscriber objects, topics hold
indices into the scheduler's subscriber list.  `deps` —
Modelled from the spec: the declared inter-Topic dependency names consumed by
the dependency-ordering collaborator (§4.8, §6); the `Topic` class itself
carries no dependency attribute in src/. -/
structure Topic where
  name : String
  subscribers : List Nat
  message_body : PyDict
  current_time : ℚ
  previous_time : ℚ
  delta_time_seconds : ℚ
  replace_message_with_log : Bool
  deps : List String
  deriving DecidableEq, Repr

/-- Apply a function to the subscriber object at index `i` (shared-reference
update). -/
def modifyAt (σ : List Subscriber) (i : Nat) (f : Subscriber → Subscriber) :
    List Subscriber :=
  match σ[i]? with
  | some sub => σ.set i (f sub)
  | none => σ

/-- `Topic.notify_subscribers` (lines 289–291): every registered subscriber
stores the message under this topic's name. -/
def notify_subscribers (σ : List Subscriber) (t : Topic) (m : Message) :
    List Subscriber :=
  t.subscribers.foldl (fun σ' i => modifyAt σ' i (fun sub => store_messages sub t.name m)) σ

/-- `Topic.publish_periodic` (lines 272–279): take the current time, compute
the delta, run the generator, wrap the result in a `Message`, notify the
subscribers, and return `(message, current_time, delta)`.
`generate_messages_periodic` is user-supplied and abstract; `body` is the
dictionary it returns on this tick.  All `time.time()` readings within the
tick are the tick instant `now`. -/
def publish_periodic (σ : List Subscriber) (t : Topic) (now : ℚ) (body : PyDict) :
    Topic × List Subscriber × Message × ℚ × ℚ :=
  let current := now
  let delta := current - t.previous_time
  let msg : Message := { message := body, time_stamp := now }
  let t' := { t with current_time := current, delta_time_seconds := delta,
                     message_body := body, previous_time := current }
  (t', notify_subscribers σ t msg, msg, current, delta)

/-- `Topic.publish_periodic_from_log` (lines 281–287): adopt the logged time
and delta, notify the subscribers with the logged message unchanged, and
return `(message, current_time, delta)`.  (It does not touch
`message_body`.) -/
def publish_periodic_from_log (σ : List Subscriber) (t : Topic) (mlog : Message)
    (ctime delta : ℚ) : Topic × List Subscriber × Message × ℚ × ℚ :=
  let t' := { t with current_time := ctime, delta_time_seconds := delta,
                     previous_time := ctime }
  (t', notify_subscribers σ t mlog, mlog, ctime, delta)

/-! ## Scheduler: the topic phase of `periodic`, live and replay

The per-tick log record.  The live scheduler writes one line per tick
(scheduler.py lines 86–89): the tick time and, per topic, the message
dictionary, the current time and the delta returned by `publish_periodic`
(line 82).  `topicLogUtil` (not in src/) parses those lines back;
Modelled from the spec: the log utility contract of §6 —
`load(path) → (ordered timestamps, raw per-tick contents)` and
`lookup(time, index) → mapping topic-name → (message, time, delta)` — is
modelled by keeping the records structured, one `(time, record)` pair per
tick, consumed in order. -/

/-- One topic's logged triple for one tick. -/
structure TickEntry where
  body : PyDict
  time_s : ℚ
  delta_s : ℚ
  deriving DecidableEq, Repr

/-- The topic loop of `Scheduler.periodic` in live mode (lines 71–82 with
`is_sim` false): publish every topic in order and build the
`stored_messages` record.  `gens` lists, in topic order, the dictionary each
topic's `generate_messages_periodic` returns this tick. -/
def liveTopicsTick : List Topic → List Subscriber → ℚ → List PyDict →
    List Topic × List Subscriber × List (String × TickEntry)
  | [], σ, _, _ => ([], σ, [])
  | t :: ts, σ, now, gens =>
    let body := gens.headD []
    let p := publish_periodic σ t now body
    let rest := liveTopicsTick ts p.2.1 now gens.tail
    (p.1 :: rest.1, rest.2.1,
      (t.name, { body := p.2.2.1.message, time_s := p.2.2.2.1, delta_s := p.2.2.2.2 }) :: rest.2.2)

/-- `get_message_at_time` fetch for one topic: look the topic's name up in
the tick's logged record (a Python dict lookup; `KeyError` when absent). -/
def lookupRec (rec : List (String × TickEntry)) (n : String) :
    Except PyErr TickEntry :=
  match rec.find? (fun p => p.1 = n) with
  | some p => .ok p.2
  | none => .error .keyError

/-- The topic loop of `Scheduler.periodic` in simulation mode (lines 71–82
with `is_sim` true): a topic flagged `replace_message_with_log` gets the
logged `(message, time, delta)` — the scheduler rebuilds
`Message(message_dictionary)` and overwrites its `time_stamp` with the
logged current time (lines 74–75) — and feeds it through
`publish_periodic_from_log`; an unflagged topic calls `publish_periodic`
as live (`wall` is the wall-clock instant `time.time()` would give, `gens`
the generator outputs).  Returns the updated topics, subscribers and the
re-built `stored_messages` record. -/
def simTopicsTick : List Topic → List Subscriber → List (String × TickEntry) →
    ℚ → List PyDict →
    Except PyErr (List Topic × List Subscriber × List (String × TickEntry))
  | [], σ, _, _, _ => .ok ([], σ, [])
  | t :: ts, σ, rec, wall, gens =>
    if t.replace_message_with_log then do
      let e ← lookupRec rec t.name
      let msg : Message := { message := e.body, time_stamp := e.time_s }
      let p := publish_periodic_from_log σ t msg e.time_s e.delta_s
      let rest ← simTopicsTick ts p.2.1 rec wall gens.tail
      .ok (p.1 :: rest.1, rest.2.1,
        (t.name, { body := p.2.2.1.message, time_s := p.2.2.2.1, delta_s := p.2.2.2.2 }) :: rest.2.2)
    else do
      let body := gens.headD []
      let p := publish_periodic σ t wall body
      let rest ← simTopicsTick ts p.2.1 rec wall gens.tail
      .ok (p.1 :: rest.1, rest.2.1,
        (t.name, { body := p.2.2.1.message, time_s := p.2.2.2.1, delta_s := p.2.2.2.2 }) :: rest.2.2)

/-- A live run of `Scheduler.periodic`'s topic phase over successive ticks.
Each tick supplies its instant and the generator outputs.  Returns the
per-tick trace of subscriber states (what the downstream consumers observe
after step 3 of each tick) and the log: one `(tick time, record)` line per
tick, as `begin_log`/line 89 write it. -/
def liveRunLoop : List Topic → List Subscriber → List (ℚ × List PyDict) →
    List (List Subscriber) × List (ℚ × List (String × TickEntry))
  | _, _, [] => ([], [])
  | ts, σ, (now, gens) :: rest =>
    let p := liveTopicsTick ts σ now gens
    let r := liveRunLoop p.1 p.2.1 rest
    (p.2.1 :: r.1, (now, p.2.2) :: r.2)

/-- A simulation-mode run of `Scheduler.periodic`'s topic phase over a log:
each tick pops the next timestamp (line 52) and fetches that tick's record
(line 68, the `topicLogUtil` lookups — Modelled from the spec: the per-tick
indexed lookup returns precisely the record logged at the popped timestamp).
`walls` supplies per tick the wall instant and generator outputs used only by
unflagged topics.  Returns the per-tick subscriber trace and the re-built
records. -/
def simRunLoop : List Topic → List Subscriber →
    List (ℚ × List (String × TickEntry)) → List (ℚ × List PyDict) →
    Except PyErr (List (List Subscriber) × List (List (String × TickEntry)))
  | _, _, [], _ => .ok ([], [])
  | ts, σ, (_, rec) :: logRest, walls => do
    let p ← simTopicsTick ts σ rec (walls.headD (0, [])).1 (walls.headD (0, [])).2
    let r ← simRunLoop p.1 p.2.1 logRest walls.tail
    .ok (p.2.1 :: r.1, p.2.2 :: r.2)

/-! ## Scheduler: `initialize` -/

/-- The scheduler configuration `Scheduler.__init__` builds before
`initialize` runs (scheduler.py lines 12–21). -/
structure SchedulerCfg where
  topics : List Topic
  subscribers : List Subscriber
  is_sim : Bool
  throw_exception_on_init_failure : Bool
  file_reading_name : Option String
  deriving DecidableEq, Repr

/-- Dependency names of the topic called `n` (first match, as a lookup among
the given topics). -/
def depsOf (ts : List Topic) (n : String) : List String :=
  match ts.find? (fun t => t.name = n) with
  | some t => t.deps
  | none => []

/-- One expansion step of the reachable-name set. -/
def expandOnce (ts : List Topic) (s : List String) : List String :=
  (s ++ s.flatMap (depsOf ts)).dedup

/-- Names reachable from `start` through dependency edges, with enough
iterations to saturate within the given topic set. -/
def reachNames (ts : List Topic) : Nat → List String → List String
  | 0, s => s
  | k + 1, s => reachNames ts k (expandOnce ts s)

/-- Modelled from the spec: `cycle_is_present_in_any` from
`pyros_math.graph_theory`, whose source is not in src/.  §6 specifies the
collaborator's contract as `has_cycle(topics) → bool` over the declared
inter-Topic dependencies; a cycle exists exactly when some topic is
reachable from its own dependencies. -/
def cycle_is_present_in_any (ts : List Topic) : Bool :=
  ts.any (fun t => (reachNames ts ts.length t.deps).contains t.name)

/-- Whether a topic's dependencies are satisfied by the already-placed names
(a dependency naming no pending topic is treated as external and ignored). -/
def readyTopic (placed pending : List Topic) (t : Topic) : Bool :=
  t.deps.all (fun d =>
    (placed.map Topic.name).contains d || !((pending.map Topic.name).contains d))

/-- The placing loop of the modelled dependency sort (Kahn-style): repeatedly
move every pending topic whose dependencies are placed; stop when nothing
moves (a cycle) or the fuel runs out, appending whatever is left. -/
def sortGo (fuel : Nat) (placed pending : List Topic) : List Topic :=
  match fuel with
  | 0 => placed ++ pending
  | f + 1 =>
    let ready := pending.filter (readyTopic placed pending)
    if ready.isEmpty then placed ++ pending
    else sortGo f (placed ++ ready) (pending.filter (fun t => !readyTopic placed pending t))

/-- Modelled from the spec: `dependecy_sort` (sic) from
`pyros_math.graph_theory`, whose source is not in src/.  §4.8/§6 specify the
contract `order(topics) → ordered topics`: a total order placing every topic
after the topics it depends on (meaningful for acyclic graphs; cyclic
remainders are appended unchanged).  Only the fact that the output is a
permutation of the input reaches the theorems below. -/
def dependecy_sort (ts : List Topic) : List Topic :=
  sortGo ts.length [] ts

/-- `Scheduler.check_topic_name_collision`'s loops (lines 125–136), with the
`visited_topics` accumulator: for each topic, first compare against every
earlier topic, then against every subscriber. -/
def checkLoop (visited : List Topic) : List Topic → List Subscriber →
    Except PyErr Unit
  | [], _ => .ok ()
  | t :: rest, subs =>
    if visited.any (fun o => o.name = t.name) then .error .topicNameCollision
    else if subs.any (fun sb => sb.name = t.name) then .error .subscriberNameCollision
    else checkLoop (visited ++ [t]) rest subs

/-- `Scheduler.check_topic_name_collision` (lines 125–136). -/
def check_topic_name_collision (ts : List Topic) (subs : List Subscriber) :
    Except PyErr Unit :=
  checkLoop [] ts subs

/-- `Scheduler.init_hardware` (lines 119–124): each subscriber's hardware is
initialized; a failure aborts when `throw_exception_on_init_failure` is set.
(The method also mirrors the scheduler's `is_sim` flag onto the subscriber;
that flag plays no role in the verified claims.) -/
def init_hardware : List Subscriber → Bool → Except PyErr Unit
  | [], _ => .ok ()
  | sb :: rest, throwFlag =>
    if throwFlag && !sb.hardware_ok then .error .runtimeHardware
    else init_hardware rest throwFlag

/-- `Scheduler.begin_log` (lines 113–117): in live mode, create the log file
and write its header line; in simulation mode, nothing.  The returned list
holds the lines written to the log file. -/
def begin_log (is_sim : Bool) : List String :=
  if is_sim then [] else ["Time, TopicMessageDictionaries"]

/-- `Scheduler.initialize` (lines 24–41): sort the topics, abort with the
circular-dependency error if a cycle is detected, then create the log, then
initialize hardware, then check name collisions, then (simulation mode only)
require and load the replay log.  Returns the sorted topics on success,
paired with every line written to the log file along the way.  (The
`print` of each topic name on line 31 goes to stdout, not to the log.) -/
def scheduler_initialize_run (s : SchedulerCfg) :
    Except PyErr (List Topic) × List String :=
  let sorted := dependecy_sort s.topics
  if cycle_is_present_in_any sorted then (.error .circularDependency, [])
  else
    let logw := begin_log s.is_sim
    match init_hardware s.subscribers s.throw_exception_on_init_failure with
    | .error e => (.error e, logw)
    | .ok _ =>
      match check_topic_name_collision sorted s.subscribers with
      | .error e => (.error e, logw)
      | .ok _ =>
        if s.is_sim then
          match s.file_reading_name with
          | none => (.error .missingLogFile, logw)
          | some _ => (.ok sorted, logw)
        else (.ok sorted, logw)

/-! ## Claim theorems -/

/-- C9: constructing `Message(p)` fails with a type error if and only if the
payload is not a dictionary; for a dictionary payload construction succeeds
and captures the creation timestamp. -/
theorem message_payload_type_check (p : PyVal) (now : ℚ) :
    message_construct p now =
      (if p.isDict then .ok { message := p.getDict, time_stamp := now }
       else .error .typeError) := by
  cases p <;> rfl

/-- C5: a `DelayCommand` built with duration `d` and the scheduler's shared
time topic (whose `"Unix"` reading is the `tU` argument of the command
operations — the only clock the command ever consults): `first_run` captures
the topic's current reading `r0` into `start_time`, `periodic` leaves the
state untouched, and `is_complete` at a later reading `r1` answers exactly
`r1 - r0 ≥ d`.  The node `⟨none, false, .delay d none⟩` is the state
`DelayCommand.__init__` builds. -/
theorem delay_command_timer_semantics (d r0 r1 : ℚ) :
    cmdFirstRun 3 r0 [⟨none, false, .delay d none⟩] 0 =
      .ok [⟨none, true, .delay d (some r0)⟩] ∧
    cmdPeriodic 3 r1 [⟨none, true, .delay d (some r0)⟩] 0 =
      .ok [⟨none, true, .delay d (some r0)⟩] ∧
    cmdIsComplete 3 r1 [⟨none, true, .delay d (some r0)⟩] 0 =
      .ok (decide (r1 - r0 ≥ d), [⟨none, true, .delay d (some r0)⟩]) :=
  ⟨rfl, rfl, rfl⟩

/-- C1 (code bug evidence): with any root command installed — here a plain
user command fresh from `Command.__init__` — `Scheduler.periodic`'s command
phase raises `AttributeError` at once, because line 54 of scheduler.py reads
the attribute `first_run_occured` while `Command.__init__` (and every
subclass) only ever sets `first_run_occurred`.  Neither `first_run`, nor the
advance, nor the current command's `periodic` is ever reached. -/
theorem scheduler_periodic_root_attribute_error :
    scheduler_command_phase 9 0
      { root_command := some 0, store := [⟨none, false, .base 1⟩], printed := [] } =
      .error .attributeError := rfl

/-- C10: `d` is a `DynamicCommand` whose single registered pair is a
predicate currently returning true with successor `s` (a fresh user command,
id 1).  The first `is_complete()` call installs `s` as `d`'s successor; the
second call, with the predicate still true, hands `s` to `setNext` again,
which walks `d → s` and appends `s` after itself: `s.next_command` is `s`,
a cycle in the command chain. -/
theorem dynamic_double_is_complete_self_cycle :
    cmdIsComplete 9 0
      [⟨none, false, .dynamic [(true, 1)]⟩, ⟨none, false, .base 0⟩] 0 =
      .ok (true, [⟨some 1, false, .dynamic [(true, 1)]⟩, ⟨none, false, .base 0⟩]) ∧
    cmdIsComplete 9 0
      [⟨some 1, false, .dynamic [(true, 1)]⟩, ⟨none, false, .base 0⟩] 0 =
      .ok (true, [⟨some 1, false, .dynamic [(true, 1)]⟩, ⟨some 1, false, .base 0⟩]) ∧
    ([⟨some 1, false, .dynamic [(true, 1)]⟩, (⟨some 1, false, .base 0⟩ : CmdNode)][1]?).map
        CmdNode.next_command = some (some 1) :=
  ⟨rfl, rfl, rfl⟩

/-- C3 (counterexample): a `DynamicCommand` `d` (id 0) that already has a
successor `e` (id 1) and one registered pair whose predicate is true with
successor `s` (id 2).  `is_complete()` returns true, but `s` is NOT
installed as `d`'s next link: `setNext` appends `s` at the tail of the
existing chain (`e.next_command` becomes `s`) and `d.next_command` keeps
pointing at `e`. -/
theorem dynamic_is_complete_appends_not_installs :
    cmdIsComplete 9 0
      [⟨some 1, false, .dynamic [(true, 2)]⟩, ⟨none, false, .base 5⟩,
       ⟨none, false, .base 0⟩] 0 =
      .ok (true,
        [⟨some 1, false, .dynamic [(true, 2)]⟩, ⟨some 2, false, .base 5⟩,
         ⟨none, false, .base 0⟩]) ∧
    ([⟨some 1, false, .dynamic [(true, 2)]⟩, ⟨some 2, false, .base 5⟩,
      (⟨none, false, .base 0⟩ : CmdNode)][0]?).map CmdNode.next_command ≠
      some (some 2) :=
  ⟨rfl, by decide⟩

/-- C4 (counterexample): a `ParallelCommand` holding one child that is
itself a `ParallelCommand` with no children.  The child reports complete
(`all` of nothing), so the loop reads `command.next_command` — an attribute
a `ParallelCommand` never has, since its `__init__` skips
`Command.__init__` — and `periodic()` raises `AttributeError` instead of
running the child's `periodic()`. -/
theorem parallel_periodic_nested_attribute_error :
    cmdPeriodic 9 0
      [⟨none, false, .parallel [1]⟩, ⟨none, false, .parallel []⟩] 0 =
      .error .attributeError := rfl

/-- C8 (counterexample): `setNext` called on a `ParallelCommand` (id 0) with
a genuine `Command` argument (id 1) raises `AttributeError` on the
`self.next_command is None` read, because `ParallelCommand.__init__` skips
`Command.__init__` and never creates the attribute — the claim's "installs
next as c's successor" does not happen for every Command `c`. -/
theorem setNext_on_parallel_attribute_error :
    setNext [⟨none, false, .parallel []⟩, ⟨none, false, .base 0⟩] 0 (.cmd 1) 5 =
      .error .attributeError := rfl

/-- C6 (counterexample): a scheduler whose topic list has two topics both
named "A" (a name collision), but whose only subscriber reports a hardware
failure.  `initialize()` raises the hardware `RuntimeError`, not a collision
error, because `init_hardware` runs before `check_topic_name_collision`
(scheduler.py lines 33–35). -/
theorem initialize_collision_preempted_by_hardware :
    (scheduler_initialize_run
      { topics := [⟨"A", [], [], 0, 0, 0, false, []⟩, ⟨"A", [], [], 0, 0, 0, false, []⟩],
        subscribers := [⟨"S", [], false, false⟩],
        is_sim := false, throw_exception_on_init_failure := true,
        file_reading_name := none }).1 = .error .runtimeHardware ∧
    (PyErr.runtimeHardware ≠ .topicNameCollision ∧
     PyErr.runtimeHardware ≠ .subscriberNameCollision) :=
  ⟨rfl, by decide, by decide⟩

/-- C7: for a scheduler whose topic dependency graph contains a cycle — as
reported by the (spec-modelled) cycle check run, exactly where
`Scheduler.initialize` runs it, on the sorted topics, which
`dependecy_sort_perm` below shows are the scheduler's own topics —
`initialize()` returns the circular-dependency error with no log lines
written (and no log file created): the check precedes `begin_log`. -/
theorem initialize_cycle_aborts_before_log (s : SchedulerCfg)
    (h : cycle_is_present_in_any (dependecy_sort s.topics) = true) :
    scheduler_initialize_run s = (.error .circularDependency, []) := by
  simp [scheduler_initialize_run, h]

/-- Witness for C7: topics "A" and "B" depending on each other. -/
theorem initialize_cycle_aborts_before_log_witness :
    cycle_is_present_in_any (dependecy_sort
      [⟨"A", [], [], 0, 0, 0, false, ["B"]⟩, ⟨"B", [], [], 0, 0, 0, false, ["A"]⟩]) = true ∧
    scheduler_initialize_run
      { topics := [⟨"A", [], [], 0, 0, 0, false, ["B"]⟩,
                   ⟨"B", [], [], 0, 0, 0, false, ["A"]⟩],
        subscribers := [], is_sim := false,
        throw_exception_on_init_failure := true, file_reading_name := none } =
      (.error .circularDependency, []) :=
  ⟨by decide, initialize_cycle_aborts_before_log _ (by decide)⟩

/-! ## Helper lemmas -/

/-- Bind on `Except` applied to a success. -/
@[simp] theorem exbind_ok {α β : Type} (a : α) (f : α → Except PyErr β) :
    (Except.ok a >>= f) = f a := rfl

/-- Bind on `Except` applied to a failure. -/
@[simp] theorem exbind_error {α β : Type} (e : PyErr) (f : α → Except PyErr β) :
    ((Except.error e : Except PyErr α) >>= f) = .error e := rfl

/-- Whether a command kind is `ParallelCommand` (the one kind whose
constructor skips `Command.__init__`). -/
def CmdKind.isParallelKind : CmdKind → Bool
  | .parallel _ => true
  | _ => false

/-- A successful `next_command` read reveals a non-`ParallelCommand` node
holding that value. -/
theorem getNextAttr_ok {s : CmdStore} {i : Nat} {v : Option Nat}
    (h : getNextAttr s i = .ok v) :
    ∃ n, storeGet s i = .ok n ∧ n.kind.isParallelKind = false ∧
      n.next_command = v := by
  unfold getNextAttr at h
  cases hg : storeGet s i with
  | error e => rw [hg] at h; simp at h
  | ok n =>
    rw [hg, exbind_ok] at h
    refine ⟨n, rfl, ?_, ?_⟩ <;>
      cases hk : n.kind <;> rw [hk] at h <;> simp_all [CmdKind.isParallelKind]

/-- Reading `next_command` on a non-`ParallelCommand` node succeeds with the
stored value. -/
theorem getNextAttr_eq {s : CmdStore} {i : Nat} {n : CmdNode}
    (hget : storeGet s i = .ok n) (hk : n.kind.isParallelKind = false) :
    getNextAttr s i = .ok n.next_command := by
  unfold getNextAttr
  rw [hget, exbind_ok]
  cases hkk : n.kind <;> simp_all [CmdKind.isParallelKind]

/-- When every supplier answers false, the condition walk calls them all and
selects nothing. -/
theorem dynWalk_none (conds : List (Bool × Nat))
    (h : conds.all (fun p => !p.1) = true) :
    dynWalk conds = (none, conds.length) := by
  induction conds with
  | nil => rfl
  | cons c rest ih =>
    obtain ⟨b, m⟩ := c
    simp only [List.all_cons, Bool.and_eq_true, Bool.not_eq_true'] at h
    simp [dynWalk, h.1, ih h.2]

/-- The condition walk stops at the first supplier that answers true: it
selects that pair's successor having called exactly the suppliers up to and
including the match. -/
theorem dynWalk_first (pre post : List (Bool × Nat)) (nid : Nat)
    (h : pre.all (fun p => !p.1) = true) :
    dynWalk (pre ++ (true, nid) :: post) = (some nid, pre.length + 1) := by
  induction pre with
  | nil => simp [dynWalk]
  | cons c rest ih =>
    obtain ⟨b, m⟩ := c
    simp only [List.all_cons, Bool.and_eq_true, Bool.not_eq_true'] at h
    simp [dynWalk, h.1, ih h.2]

/-- C3 (amended): `DynamicCommand.is_complete` evaluates the registered
predicates strictly in registration order; when none is true it returns
false and leaves the store untouched; the first true predicate wins — no
later supplier is called (`dynWalk`'s call count stops right after the
match), the matching pair's successor is handed to `setNext` and the call
returns true; in particular, when the command has no successor yet, the
successor is installed as its next link directly. -/
theorem dynamic_is_complete_first_match (f : Nat) (tU : ℚ) (s : CmdStore)
    (cid : Nat) (n : CmdNode) (conds : List (Bool × Nat))
    (hget : storeGet s cid = .ok n) (hkind : n.kind = .dynamic conds) :
    ((conds.all fun p => !p.1) = true →
      cmdIsComplete (f + 1) tU s cid = .ok (false, s)) ∧
    (∀ pre nid post, conds = pre ++ (true, nid) :: post →
      pre.all (fun p => !p.1) = true →
      cmdIsComplete (f + 1) tU s cid =
        (setNext s cid (.cmd nid) f).map (fun s1 => (true, s1)) ∧
      (dynWalk conds).2 = pre.length + 1 ∧
      (n.next_command = none →
        cmdIsComplete (f + 1) tU s cid =
          .ok (true, storeSet s cid { n with next_command := some nid }))) := by
  constructor
  · intro hall
    simp [cmdIsComplete, hget, hkind, dynWalk_none conds hall]
  · intro pre nid post hsplit hpre
    have hwalk := dynWalk_first pre post nid hpre
    rw [← hsplit] at hwalk
    have hmain : cmdIsComplete (f + 1) tU s cid =
        (setNext s cid (.cmd nid) f).map (fun s1 => (true, s1)) := by
      simp only [cmdIsComplete, hget, exbind_ok, hkind, hwalk]
      cases hs : setNext s cid (.cmd nid) f <;> simp [Except.map, hs]
    refine ⟨hmain, by rw [hwalk], ?_⟩
    intro hnone
    rw [hmain]
    have hna : getNextAttr s cid = .ok none := by
      rw [← hnone]
      exact getNextAttr_eq hget (by rw [hkind]; rfl)
    simp [setNext, hna, hget, Except.map]

/-- Witness for C3: a `DynamicCommand` (id 0) with pairs
`[(false, 1), (true, 1)]` and no successor; the second pair matches first
among the true ones. -/
theorem dynamic_is_complete_first_match_witness :
    storeGet [⟨none, false, .dynamic [(false, 1), (true, 1)]⟩,
              ⟨none, false, .base 0⟩] 0 =
      .ok ⟨none, false, .dynamic [(false, 1), (true, 1)]⟩ ∧
    (((([(false, 1), (true, 1)] : List (Bool × Nat)).all fun p => !p.1) = true →
      cmdIsComplete 4 0 [⟨none, false, .dynamic [(false, 1), (true, 1)]⟩,
                         ⟨none, false, .base 0⟩] 0 =
        .ok (false, [⟨none, false, .dynamic [(false, 1), (true, 1)]⟩,
                     ⟨none, false, .base 0⟩])) ∧
    (∀ pre nid post,
      ([(false, 1), (true, 1)] : List (Bool × Nat)) = pre ++ (true, nid) :: post →
      pre.all (fun p => !p.1) = true →
      cmdIsComplete 4 0 [⟨none, false, .dynamic [(false, 1), (true, 1)]⟩,
                         ⟨none, false, .base 0⟩] 0 =
        (setNext [⟨none, false, .dynamic [(false, 1), (true, 1)]⟩,
                  ⟨none, false, .base 0⟩] 0 (.cmd nid) 3).map
          (fun s1 => (true, s1)) ∧
      (dynWalk [(false, 1), (true, 1)]).2 = pre.length + 1 ∧
      ((⟨none, false, .dynamic [(false, 1), (true, 1)]⟩ : CmdNode).next_command = none →
        cmdIsComplete 4 0 [⟨none, false, .dynamic [(false, 1), (true, 1)]⟩,
                           ⟨none, false, .base 0⟩] 0 =
          .ok (true, storeSet [⟨none, false, .dynamic [(false, 1), (true, 1)]⟩,
                               ⟨none, false, .base 0⟩] 0
            { (⟨none, false, .dynamic [(false, 1), (true, 1)]⟩ : CmdNode) with
              next_command := some nid })))) :=
  ⟨rfl, dynamic_is_complete_first_match 3 0
    [⟨none, false, .dynamic [(false, 1), (true, 1)]⟩, ⟨none, false, .base 0⟩]
    0 ⟨none, false, .dynamic [(false, 1), (true, 1)]⟩
    [(false, 1), (true, 1)] rfl rfl⟩

/-- The `while` walk of `setNext` lands on the last command of the
nil-terminated chain and appends the new command there. -/
theorem setNextWalk_appends (nid : Nat) :
    ∀ (f : Nat) (s : CmdStore) (start : Nat) (L : List Nat),
    chainOf s (f + 1) start = some L →
    ∃ lastId nlast, L.getLast? = some lastId ∧ storeGet s lastId = .ok nlast ∧
      setNextWalk s start nid (f + 1) =
        .ok (storeSet s lastId { nlast with next_command := some nid }) := by
  intro f
  induction f with
  | zero =>
    intro s start L h
    unfold chainOf at h
    cases hga : getNextAttr s start with
    | error e => rw [hga] at h; exact absurd h (by simp)
    | ok nx =>
      cases nx with
      | none =>
        rw [hga] at h
        obtain ⟨n, hn, -, hnext⟩ := getNextAttr_ok hga
        refine ⟨start, n, ?_, hn, ?_⟩
        · simp at h; simp [← h]
        · simp [setNextWalk, hga, hn]
      | some nxt =>
        rw [hga] at h
        simp [chainOf] at h
  | succ g ih =>
    intro s start L h
    unfold chainOf at h
    cases hga : getNextAttr s start with
    | error e => rw [hga] at h; exact absurd h (by simp)
    | ok nx =>
      cases nx with
      | none =>
        rw [hga] at h
        obtain ⟨n, hn, -, hnext⟩ := getNextAttr_ok hga
        refine ⟨start, n, ?_, hn, ?_⟩
        · simp at h; simp [← h]
        · simp [setNextWalk, hga, hn]
      | some nxt =>
        rw [hga] at h
        simp only [Option.map_eq_some'] at h
        obtain ⟨L', hL', rfl⟩ := (by
          cases hc : chainOf s (g + 1) nxt with
          | none => rw [hc] at h; simp at h
          | some L' => rw [hc] at h; simp at h; exact ⟨L', rfl, h.symm⟩ :
            ∃ L', chainOf s (g + 1) nxt = some L' ∧ L = start :: L')
        obtain ⟨lastId, nlast, hlast, hget, hwalk⟩ := ih s nxt L' hL'
        refine ⟨lastId, nlast, ?_, hget, ?_⟩
        · cases L' with
          | nil => simp at hlast
          | cons a t => rw [List.getLast?_cons_cons]; exact hlast
        · have hstep : setNextWalk s start nid (g + 1 + 1) =
              setNextWalk s nxt nid (g + 1) := by
            unfold setNextWalk
            rw [hga]
            rfl
          rw [hstep]
          exact hwalk

/-- C8 (amended): for every Command `c` whose successor chain is
nil-terminated and contains no `ParallelCommand` (equivalently: every node
on it owns the `next_command` attribute — `chainOf` returns the chain),
`setNext` rejects any non-Command argument with a type error whatever the
fuel, and with a Command argument it writes the new command as the
`next_command` of the chain's last node — installing it directly when `c`
has no successor (then the chain is `[c]`), appending at the tail otherwise
— and leaves every other node untouched, so repeated calls build a sequence
and never overwrite an existing link. -/
theorem setNext_appends_at_tail (s : CmdStore) (cid : Nat) (L : List Nat)
    (f nid : Nat) (h : chainOf s (f + 1) cid = some L) :
    (∀ (v : PyVal) (g : Nat), v.isCmd = false →
      setNext s cid v g = .error .typeError) ∧
    ∃ lastId nlast, L.getLast? = some lastId ∧ storeGet s lastId = .ok nlast ∧
      setNext s cid (.cmd nid) f =
        .ok (storeSet s lastId { nlast with next_command := some nid }) ∧
      ∀ k, k ≠ lastId →
        (storeSet s lastId { nlast with next_command := some nid })[k]? = s[k]? := by
  constructor
  · intro v g hv
    cases v <;> simp_all [PyVal.isCmd, setNext]
  · unfold chainOf at h
    cases hga : getNextAttr s cid with
    | error e => rw [hga] at h; exact absurd h (by simp)
    | ok nx =>
      cases nx with
      | none =>
        rw [hga] at h
        obtain ⟨n, hn, -, hnext⟩ := getNextAttr_ok hga
        simp only [Option.some.injEq] at h
        refine ⟨cid, n, by simp [← h], hn, ?_, ?_⟩
        · simp [setNext, hga, hn]
        · intro k hk
          exact List.getElem?_set_ne (Ne.symm hk)
      | some nxt =>
        rw [hga] at h
        simp only [Option.map_eq_some'] at h
        obtain ⟨L', hc, hL⟩ := h
        cases f with
        | zero => rw [chainOf] at hc; exact absurd hc (by simp)
        | succ g =>
          obtain ⟨lastId, nlast, hlast, hget, hwalk⟩ :=
            setNextWalk_appends nid g s nxt L' hc
          refine ⟨lastId, nlast, ?_, hget, ?_, ?_⟩
          · rw [← hL]
            cases L' with
            | nil => simp at hlast
            | cons a t => rw [List.getLast?_cons_cons]; exact hlast
          · simp [setNext, hga, hwalk]
          · intro k hk
            exact List.getElem?_set_ne (Ne.symm hk)

/-- Witness for C8: a two-node chain `0 → 1` and a fresh command `2` to
append. -/
theorem setNext_appends_at_tail_witness :
    chainOf [⟨some 1, false, .base 3⟩, ⟨none, false, .base 0⟩,
             ⟨none, false, .base 7⟩] 4 0 = some [0, 1] ∧
    ((∀ (v : PyVal) (g : Nat), v.isCmd = false →
      setNext [⟨some 1, false, .base 3⟩, ⟨none, false, .base 0⟩,
               ⟨none, false, .base 7⟩] 0 v g = .error .typeError) ∧
    ∃ lastId nlast, ([0, 1] : List Nat).getLast? = some lastId ∧
      storeGet [⟨some 1, false, .base 3⟩, ⟨none, false, .base 0⟩,
                ⟨none, false, .base 7⟩] lastId = .ok nlast ∧
      setNext [⟨some 1, false, .base 3⟩, ⟨none, false, .base 0⟩,
               ⟨none, false, .base 7⟩] 0 (.cmd 2) 3 =
        .ok (storeSet [⟨some 1, false, .base 3⟩, ⟨none, false, .base 0⟩,
                       ⟨none, false, .base 7⟩] lastId
          { nlast with next_command := some 2 }) ∧
      ∀ k, k ≠ lastId →
        (storeSet [⟨some 1, false, .base 3⟩, ⟨none, false, .base 0⟩,
                   ⟨none, false, .base 7⟩] lastId
          { nlast with next_command := some 2 })[k]? =
        [⟨some 1, false, .base 3⟩, ⟨none, false, .base 0⟩,
         (⟨none, false, .base 7⟩ : CmdNode)][k]?) :=
  ⟨rfl, setNext_appends_at_tail
    [⟨some 1, false, .base 3⟩, ⟨none, false, .base 0⟩, ⟨none, false, .base 7⟩]
    0 [0, 1] 3 2 rfl⟩

/-- The placing loop of the modelled dependency sort only reorders: its
output is a permutation of `placed ++ pending`. -/
theorem sortGo_perm (fuel : Nat) :
    ∀ placed pending, List.Perm (sortGo fuel placed pending) (placed ++ pending) := by
  induction fuel with
  | zero => intro placed pending; simp [sortGo]
  | succ f ih =>
    intro placed pending
    simp only [sortGo]
    split
    · exact List.Perm.refl _
    · refine (ih _ _).trans ?_
      rw [List.append_assoc]
      exact List.Perm.append_left placed (List.filter_append_perm _ pending)

/-- The modelled `dependecy_sort` permutes the scheduler's topics: it drops
none and invents none, so name collisions and the dependency graph itself
are unchanged by the sorting step. -/
theorem dependecy_sort_perm (ts : List Topic) : List.Perm (dependecy_sort ts) ts :=
  (sortGo_perm ts.length [] ts).trans (by simp)

/-- `check_topic_name_collision`'s loop either succeeds or raises one of the
two collision errors. -/
theorem checkLoop_ok_or_collision (ts : List Topic) :
    ∀ visited subs, checkLoop visited ts subs = .ok () ∨
      ∃ e, checkLoop visited ts subs = .error e ∧
        (e = PyErr.topicNameCollision ∨ e = PyErr.subscriberNameCollision) := by
  induction ts with
  | nil => intro v subs; left; rfl
  | cons t rest ih =>
    intro v subs
    simp only [checkLoop]
    split
    · right; exact ⟨_, rfl, Or.inl rfl⟩
    · split
      · right; exact ⟨_, rfl, Or.inr rfl⟩
      · exact ih _ _

/-- When `check_topic_name_collision`'s loop succeeds, the scanned topics
have pairwise-distinct names, names distinct from every already-visited
topic, and names distinct from every subscriber. -/
theorem checkLoop_ok_names (ts : List Topic) :
    ∀ visited subs, checkLoop visited ts subs = .ok () →
      (ts.map Topic.name).Nodup ∧
      (∀ t ∈ ts, ∀ v ∈ visited, t.name ≠ v.name) ∧
      (∀ t ∈ ts, ∀ sb ∈ subs, t.name ≠ sb.name) := by
  induction ts with
  | nil => intro v subs _; refine ⟨by simp, by simp, by simp⟩
  | cons t rest ih =>
    intro v subs h
    simp only [checkLoop] at h
    by_cases h1 : v.any (fun o => o.name = t.name)
    · rw [if_pos h1] at h; exact absurd h (by simp)
    · rw [if_neg h1] at h
      by_cases h2 : subs.any (fun sb => sb.name = t.name)
      · rw [if_pos h2] at h; exact absurd h (by simp)
      · rw [if_neg h2] at h
        obtain ⟨hnd, hvis, hsub⟩ := ih (v ++ [t]) subs h
        simp only [List.any_eq_true, decide_eq_true_eq, not_exists, not_and] at h1 h2
        refine ⟨?_, ?_, ?_⟩
        · simp only [List.map_cons, List.nodup_cons]
          refine ⟨?_, hnd⟩
          simp only [List.mem_map, not_exists, not_and]
          intro t' ht'
          exact hvis t' ht' t (by simp)
        · intro t' ht' v' hv'
          rcases List.mem_cons.mp ht' with rfl | ht'
          · exact fun hn => h1 v' hv' hn.symm
          · exact hvis t' ht' v' (by simp [hv'])
        · intro t' ht' sb hsb
          rcases List.mem_cons.mp ht' with rfl | ht'
          · exact fun hn => h2 sb hsb hn.symm
          · exact hsub t' ht' sb hsb

/-- C6 (amended): for every scheduler that passes the earlier fatal
`initialize()` steps — the dependency graph has no detected cycle and every
subscriber's hardware initialization succeeds — a topic list with two topics
of the same name, or a topic sharing a name with a registered subscriber,
makes `initialize()` raise one of the two collision errors, whatever the
order of the declared topics and subscribers. -/
theorem initialize_collision_error (s : SchedulerCfg)
    (hcyc : cycle_is_present_in_any (dependecy_sort s.topics) = false)
    (hhw : init_hardware s.subscribers s.throw_exception_on_init_failure = .ok ())
    (hcol : ¬ (s.topics.map Topic.name).Nodup ∨
            ∃ t ∈ s.topics, ∃ sb ∈ s.subscribers, t.name = sb.name) :
    ∃ e, (scheduler_initialize_run s).1 = .error e ∧
      (e = PyErr.topicNameCollision ∨ e = PyErr.subscriberNameCollision) := by
  obtain hok | ⟨e, he, hce⟩ :=
    checkLoop_ok_or_collision (dependecy_sort s.topics) [] s.subscribers
  · exfalso
    obtain ⟨hnd, -, hcross⟩ := checkLoop_ok_names _ [] s.subscribers hok
    have hperm : List.Perm (dependecy_sort s.topics) s.topics := dependecy_sort_perm _
    rcases hcol with hdup | ⟨t, ht, sb, hsb, heq⟩
    · exact hdup ((hperm.map Topic.name).nodup_iff.mp hnd)
    · exact hcross t (hperm.mem_iff.mpr ht) sb hsb heq
  · refine ⟨e, ?_, hce⟩
    simp [scheduler_initialize_run, hcyc, hhw, check_topic_name_collision, he]

/-- Witness for C6: two topics both named "A", no subscribers, live mode. -/
theorem initialize_collision_error_witness :
    cycle_is_present_in_any (dependecy_sort
      ([⟨"A", [], [], 0, 0, 0, false, []⟩,
        ⟨"A", [], [], 0, 0, 0, false, []⟩] : List Topic)) = false ∧
    ¬ (([⟨"A", [], [], 0, 0, 0, false, []⟩,
         ⟨"A", [], [], 0, 0, 0, false, []⟩] : List Topic).map Topic.name).Nodup ∧
    ∃ e, (scheduler_initialize_run
      { topics := [⟨"A", [], [], 0, 0, 0, false, []⟩,
                   ⟨"A", [], [], 0, 0, 0, false, []⟩],
        subscribers := [], is_sim := false,
        throw_exception_on_init_failure := true,
        file_reading_name := none }).1 = .error e ∧
      (e = PyErr.topicNameCollision ∨ e = PyErr.subscriberNameCollision) :=
  ⟨by decide, by decide,
    initialize_collision_error _ (by decide) rfl (Or.inl (by decide))⟩

/-! ## Replay round-trip (C2) -/

/-- The fields of a `Topic` that replay keeps in lock-step with the live run
as far as the notification machinery is concerned: same name, same
registered subscribers, same replay flag.  (`message_body` is allowed to
drift: `publish_periodic_from_log` never writes it, and nothing in the
replayed topic phase reads it.) -/
def TopicAgree (a b : Topic) : Prop :=
  a.name = b.name ∧ a.subscribers = b.subscribers ∧
  a.replace_message_with_log = b.replace_message_with_log

/-- `lookupRec` on a record whose head entry carries the looked-up name. -/
theorem lookupRec_head (n : String) (e : TickEntry)
    (r : List (String × TickEntry)) : lookupRec ((n, e) :: r) n = .ok e := by
  simp [lookupRec, List.find?_cons]

/-- `lookupRec` skips a head entry with a different name. -/
theorem lookupRec_skip (n0 : String) (e0 : TickEntry)
    (r : List (String × TickEntry)) (n : String) (h : n ≠ n0) :
    lookupRec ((n0, e0) :: r) n = lookupRec r n := by
  have h' : n0 ≠ n := Ne.symm h
  simp [lookupRec, List.find?_cons, h']

/-- The per-topic lookups a replayed tick performs, in the shape of the tick
recursion: topic `i` of the list finds, under its name, the triple the live
tick logged for it — its generator's output, the tick instant, and the delta
from its previous tick time. -/
def LookAll (recFull : List (String × TickEntry)) (now : ℚ) :
    List Topic → List PyDict → Prop
  | [], _ => True
  | t :: ts, gens =>
    lookupRec recFull t.name =
      .ok { body := gens.headD [], time_s := now,
            delta_s := now - t.previous_time } ∧
    LookAll recFull now ts gens.tail

/-- Extending the record with an entry for a name foreign to the topics
changes none of their lookups. -/
theorem LookAll_cons (recFull : List (String × TickEntry)) (now : ℚ)
    (n0 : String) (e0 : TickEntry) :
    ∀ (ts : List Topic) (gens : List PyDict),
    (∀ t ∈ ts, t.name ≠ n0) → LookAll recFull now ts gens →
    LookAll ((n0, e0) :: recFull) now ts gens := by
  intro ts
  induction ts with
  | nil => intro gens _ _; trivial
  | cons t rest ih =>
    intro gens hne h
    obtain ⟨h1, h2⟩ := h
    refine ⟨?_, ih _ (fun t' ht' => hne t' (by simp [ht'])) h2⟩
    rw [lookupRec_skip _ _ _ _ (hne t (by simp))]
    exact h1

/-- With pairwise-distinct topic names, every topic of a live tick finds its
own logged entry in the tick's full record. -/
theorem lookup_in_live : ∀ (ts : List Topic) (σ : List Subscriber) (now : ℚ)
    (gens : List PyDict), (ts.map Topic.name).Nodup →
    LookAll (liveTopicsTick ts σ now gens).2.2 now ts gens := by
  intro ts
  induction ts with
  | nil => intro σ now gens _; trivial
  | cons t rest ih =>
    intro σ now gens hnd
    simp only [List.map_cons, List.nodup_cons, List.mem_map] at hnd
    constructor
    · exact lookupRec_head _ _ _
    · refine LookAll_cons _ _ _ _ _ _ ?_ (ih _ now gens.tail hnd.2)
      intro t' ht' heq
      exact hnd.1 ⟨t', ht', heq⟩

/-- One replayed tick reproduces one live tick: topic lists that agree on
name, subscribers and flag, with every topic flagged to replay, fed with the
lookups of the live tick's record, produce exactly the live tick's
subscriber states and re-serialize exactly the live tick's record, and the
topic lists still agree afterwards. -/
theorem simTick_matches (recFull : List (String × TickEntry)) (now : ℚ) :
    ∀ (tsL tsS : List Topic) (σ : List Subscriber) (gens gens' : List PyDict)
      (wall : ℚ),
    List.Forall₂ TopicAgree tsL tsS →
    (∀ t ∈ tsS, t.replace_message_with_log = true) →
    LookAll recFull now tsL gens →
    ∃ tsS', simTopicsTick tsS σ recFull wall gens' =
        .ok (tsS', (liveTopicsTick tsL σ now gens).2.1,
             (liveTopicsTick tsL σ now gens).2.2) ∧
      List.Forall₂ TopicAgree (liveTopicsTick tsL σ now gens).1 tsS' := by
  intro tsL
  induction tsL with
  | nil =>
    intro tsS σ gens gens' wall hagree _ _
    cases hagree
    exact ⟨[], rfl, List.Forall₂.nil⟩
  | cons tL restL ih =>
    intro tsS σ gens gens' wall hagree hflag hlook
    cases hagree with
    | cons hTS hrest =>
      rename_i tS restS
      obtain ⟨hname, hsubs, hflageq⟩ := hTS
      obtain ⟨hlook1, hlook2⟩ := hlook
      have hfS : tS.replace_message_with_log = true := hflag tS (by simp)
      have hσ : notify_subscribers σ tS
            { message := gens.headD [], time_stamp := now } =
          notify_subscribers σ tL
            { message := gens.headD [], time_stamp := now } := by
        unfold notify_subscribers
        rw [hname, hsubs]
      have hrec1 : lookupRec recFull tS.name =
          .ok { body := gens.headD [], time_s := now,
                delta_s := now - tL.previous_time } := by
        rw [← hname]; exact hlook1
      obtain ⟨tsS', hsim, hagree'⟩ :=
        ih restS (notify_subscribers σ tL
          { message := gens.headD [], time_stamp := now })
          gens.tail gens'.tail wall hrest
          (fun t ht => hflag t (by simp [ht])) hlook2
      refine ⟨{ tS with current_time := now,
                        delta_time_seconds := now - tL.previous_time,
                        previous_time := now } :: tsS', ?_, ?_⟩
      · simp only [simTopicsTick, hfS, if_pos, hrec1, exbind_ok,
          publish_periodic_from_log, hσ, hsim, liveTopicsTick,
          publish_periodic]
        rw [hname]
      · exact List.Forall₂.cons ⟨hname, hsubs, hflageq⟩ hagree'

/-- A live tick does not rename topics. -/
theorem liveTopicsTick_names : ∀ (ts : List Topic) (σ : List Subscriber)
    (now : ℚ) (gens : List PyDict),
    ((liveTopicsTick ts σ now gens).1).map Topic.name = ts.map Topic.name := by
  intro ts
  induction ts with
  | nil => intro σ now gens; rfl
  | cons t rest ih =>
    intro σ now gens
    simp [liveTopicsTick, publish_periodic, ih]

/-- A live tick does not change replay flags. -/
theorem liveTopicsTick_flags : ∀ (ts : List Topic) (σ : List Subscriber)
    (now : ℚ) (gens : List PyDict),
    (∀ t ∈ ts, t.replace_message_with_log = true) →
    ∀ t' ∈ (liveTopicsTick ts σ now gens).1,
      t'.replace_message_with_log = true := by
  intro ts
  induction ts with
  | nil => intro σ now gens _ t' ht'; cases ht'
  | cons t rest ih =>
    intro σ now gens hfl t' ht'
    rcases List.mem_cons.mp ht' with rfl | ht'
    · exact hfl t (by simp)
    · exact ih _ now gens.tail (fun x hx => hfl x (by simp [hx])) t' ht'

/-- Topic agreement transports the all-flagged property. -/
theorem agree_flags : ∀ {tsL tsS : List Topic},
    List.Forall₂ TopicAgree tsL tsS →
    (∀ t ∈ tsL, t.replace_message_with_log = true) →
    ∀ t ∈ tsS, t.replace_message_with_log = true := by
  intro tsL tsS h
  induction h with
  | nil => intro _ t ht; cases ht
  | cons hab hrest ih =>
    intro hfl t ht
    rcases List.mem_cons.mp ht with rfl | ht
    · rw [← hab.2.2]; exact hfl _ (by simp)
    · exact ih (fun x hx => hfl x (by simp [hx])) t ht

/-- A replayed run reproduces a live run tick for tick, stated over any
still-agreeing pair of topic lists (the induction invariant). -/
theorem simRun_matches : ∀ (ticks : List (ℚ × List PyDict))
    (tsL tsS : List Topic) (σ : List Subscriber)
    (walls : List (ℚ × List PyDict)),
    List.Forall₂ TopicAgree tsL tsS →
    (tsL.map Topic.name).Nodup →
    (∀ t ∈ tsL, t.replace_message_with_log = true) →
    simRunLoop tsS σ (liveRunLoop tsL σ ticks).2 walls =
      .ok ((liveRunLoop tsL σ ticks).1,
           ((liveRunLoop tsL σ ticks).2).map Prod.snd) := by
  intro ticks
  induction ticks with
  | nil => intro tsL tsS σ walls _ _ _; rfl
  | cons tk rest ih =>
    obtain ⟨now, gens⟩ := tk
    intro tsL tsS σ walls hagree hnd hflag
    have hlook := lookup_in_live tsL σ now gens hnd
    obtain ⟨tsS', hsim, hagree'⟩ := simTick_matches _ now tsL tsS σ gens
      (walls.headD (0, [])).2 (walls.headD (0, [])).1 hagree
      (agree_flags hagree hflag) hlook
    simp only [liveRunLoop, simRunLoop]
    rw [hsim, exbind_ok]
    rw [ih (liveTopicsTick tsL σ now gens).1 tsS'
      (liveTopicsTick tsL σ now gens).2.1 walls.tail hagree'
      (by rw [liveTopicsTick_names]; exact hnd)
      (liveTopicsTick_flags _ _ _ _ hflag), exbind_ok]
    rfl

/-- C2: `publish_periodic_from_log` notifies every registered subscriber
identically to `publish_periodic` — with the same message and timestamp in
hand, both produce the very same subscriber states (first conjunct, an
equality of the two notification paths) — and consequently a log produced by
a live run, replayed in simulation mode with every topic flagged
`replace_message_with_log`, reproduces tick for tick the subscriber states
and the per-topic `(message, time, delta)` records of the live run (second
conjunct; `walls` is the simulation's wall clock and generator input, which
flagged topics never consult). -/
theorem publish_from_log_replay_roundtrip (ts : List Topic)
    (σ : List Subscriber) (ticks walls : List (ℚ × List PyDict))
    (hnd : (ts.map Topic.name).Nodup)
    (hflag : ∀ t ∈ ts, t.replace_message_with_log = true) :
    (∀ (σ0 : List Subscriber) (t : Topic) (body : PyDict) (now delta : ℚ),
      (publish_periodic_from_log σ0 t { message := body, time_stamp := now }
          now delta).2.1 =
        (publish_periodic σ0 t now body).2.1) ∧
    simRunLoop ts σ (liveRunLoop ts σ ticks).2 walls =
      .ok ((liveRunLoop ts σ ticks).1,
           ((liveRunLoop ts σ ticks).2).map Prod.snd) := by
  constructor
  · intro σ0 t body now delta; rfl
  · refine simRun_matches ticks ts ts σ walls ?_ hnd hflag
    exact List.forall₂_same.mpr (fun x _ => ⟨rfl, rfl, rfl⟩)

/-- Witness for C2: one flagged topic feeding one subscriber over two
ticks. -/
theorem publish_from_log_replay_roundtrip_witness :
    ((([⟨"T", [0], [], 0, 0, 0, true, []⟩] : List Topic).map Topic.name).Nodup ∧
     ∀ t ∈ ([⟨"T", [0], [], 0, 0, 0, true, []⟩] : List Topic),
       t.replace_message_with_log = true) ∧
    simRunLoop [⟨"T", [0], [], 0, 0, 0, true, []⟩] [⟨"S", [], true, true⟩]
      (liveRunLoop [⟨"T", [0], [], 0, 0, 0, true, []⟩] [⟨"S", [], true, true⟩]
        [(1, [[("x", .num 5)]]), (2, [[("x", .num 7)]])]).2 [] =
      .ok ((liveRunLoop [⟨"T", [0], [], 0, 0, 0, true, []⟩]
              [⟨"S", [], true, true⟩]
              [(1, [[("x", .num 5)]]), (2, [[("x", .num 7)]])]).1,
           ((liveRunLoop [⟨"T", [0], [], 0, 0, 0, true, []⟩]
              [⟨"S", [], true, true⟩]
              [(1, [[("x", .num 5)]]), (2, [[("x", .num 7)]])]).2).map Prod.snd) :=
  ⟨⟨by decide, by decide⟩,
    (publish_from_log_replay_roundtrip [⟨"T", [0], [], 0, 0, 0, true, []⟩]
      [⟨"S", [], true, true⟩] [(1, [[("x", .num 5)]]), (2, [[("x", .num 7)]])]
      [] (by decide) (by decide)).2⟩

/-! ## ParallelCommand (C4) -/

/-- The part of a command's kind that the parallel loop's control flow
depends on: whether it is a `ParallelCommand` and, if so, its current child
list. -/
def kindShape : CmdKind → Option (List Nat)
  | .parallel cs => some cs
  | _ => none

/-- The `kindShape` of every node of the store. -/
def storeShape (s : CmdStore) : List (Option (List Nat)) :=
  s.map (fun n => kindShape n.kind)

/-- `c` resolves to a node that is not a `ParallelCommand` (so it owns the
`next_command` attribute). -/
def nonParAt (s : CmdStore) (c : Nat) : Bool :=
  (storeShape s)[c]? == some none

/-- `pid` resolves to a `ParallelCommand` currently holding children `cs`. -/
def parAt (s : CmdStore) (pid : Nat) (cs : List Nat) : Bool :=
  (storeShape s)[pid]? == some (some cs)

/-- Unfolding `nonParAt` to the node it dereferences. -/
theorem nonParAt_iff (s : CmdStore) (c : Nat) :
    nonParAt s c = true ↔
      ∃ cn, s[c]? = some cn ∧ cn.kind.isParallelKind = false := by
  unfold nonParAt storeShape
  rw [List.getElem?_map]
  cases hc : s[c]? with
  | none => simp
  | some cn =>
    simp only [Option.map_some', beq_iff_eq, Option.some.injEq]
    constructor
    · intro h
      exact ⟨cn, rfl, by cases hk : cn.kind <;> rw [hk] at h <;>
        simp_all [kindShape, CmdKind.isParallelKind]⟩
    · rintro ⟨cn', hcn', hpar⟩
      cases hcn'
      cases hk : cn.kind <;> rw [hk] at hpar <;>
        simp_all [kindShape, CmdKind.isParallelKind]

/-- Unfolding `parAt` to the node it dereferences. -/
theorem parAt_iff (s : CmdStore) (pid : Nat) (cs : List Nat) :
    parAt s pid cs = true ↔
      ∃ n, s[pid]? = some n ∧ n.kind = .parallel cs := by
  unfold parAt storeShape
  rw [List.getElem?_map]
  cases hc : s[pid]? with
  | none => simp
  | some n =>
    simp only [Option.map_some', beq_iff_eq, Option.some.injEq]
    constructor
    · intro h
      exact ⟨n, rfl, by cases hk : n.kind <;> rw [hk] at h <;>
        simp_all [kindShape]⟩
    · rintro ⟨n', hn', hpar⟩
      cases hn'
      rw [hpar]
      rfl

/-- Overwriting a node with one of the same `kindShape` preserves the
store's shape. -/
theorem storeShape_set (s : CmdStore) (j : Nat) (m n' : CmdNode)
    (h : s[j]? = some m) (hk : kindShape n'.kind = kindShape m.kind) :
    storeShape (storeSet s j n') = storeShape s := by
  unfold storeShape storeSet
  rw [List.map_set]
  apply List.ext_getElem?
  intro k
  by_cases hjk : j = k
  · subst hjk
    have hlt : j < s.length := (List.getElem?_eq_some_iff.mp h).1
    rw [List.getElem?_set_self (by simpa using hlt), List.getElem?_map, h, hk]
    rfl
  · rw [List.getElem?_set_ne hjk]

/-- `setNextWalk` writes only `next_command` fields: shapes survive. -/
theorem setNextWalk_shape (nid : Nat) : ∀ (f : Nat) (s : CmdStore) (a : Nat)
    (s' : CmdStore), setNextWalk s a nid f = .ok s' →
    storeShape s' = storeShape s := by
  intro f
  induction f with
  | zero => intro s a s' h; exact absurd h (by simp [setNextWalk])
  | succ g ih =>
    intro s a s' h
    unfold setNextWalk at h
    cases hga : getNextAttr s a with
    | error e => rw [hga] at h; exact absurd h (by simp)
    | ok nx =>
      rw [hga, exbind_ok] at h
      cases nx with
      | none =>
        obtain ⟨n, hn, -, -⟩ := getNextAttr_ok hga
        rw [hn, exbind_ok] at h
        cases h
        refine storeShape_set _ _ n _ ?_ rfl
        unfold storeGet at hn
        cases hsn : s[a]? <;> rw [hsn] at hn <;> simp_all
      | some nxt => exact ih s nxt s' h

/-- `setNext` writes only `next_command` fields: shapes survive. -/
theorem setNext_shape (s : CmdStore) (self : Nat) (arg : PyVal) (fuel : Nat)
    (s' : CmdStore) (h : setNext s self arg fuel = .ok s') :
    storeShape s' = storeShape s := by
  cases arg with
  | cmd nid =>
    simp only [setNext] at h
    cases hga : getNextAttr s self with
    | error e => rw [hga] at h; exact absurd h (by simp)
    | ok nx =>
      rw [hga, exbind_ok] at h
      cases nx with
      | none =>
        obtain ⟨n, hn, -, -⟩ := getNextAttr_ok hga
        rw [hn, exbind_ok] at h
        cases h
        refine storeShape_set _ _ n _ ?_ rfl
        unfold storeGet at hn
        cases hsn : s[self]? <;> rw [hsn] at hn <;> simp_all
      | some first => exact setNextWalk_shape nid fuel s first s' h
  | dict d => simp [setNext] at h
  | str v => simp [setNext] at h
  | int v => simp [setNext] at h
  | pyNone => simp [setNext] at h

/-- A successful dereference exposes the list entry. -/
theorem storeGet_some {s : CmdStore} {i : Nat} {n : CmdNode}
    (h : storeGet s i = .ok n) : s[i]? = some n := by
  unfold storeGet at h
  cases hs : s[i]? <;> rw [hs] at h <;> simp_all

/-- `first_run` and its helpers write only flags and `DelayCommand` start
times: the store's shape (parallel-ness and child lists) survives. -/
theorem firstRun_shape : ∀ (f : Nat),
    (∀ (tU : ℚ) (s : CmdStore) (c : Nat) (s' : CmdStore),
      cmdFirstRun f tU s c = .ok s' → storeShape s' = storeShape s) ∧
    (∀ (tU : ℚ) (s : CmdStore) (c : Nat) (s' : CmdStore),
      cmdFirstRunBehavior f tU s c = .ok s' → storeShape s' = storeShape s) ∧
    (∀ (tU : ℚ) (s : CmdStore) (cs : List Nat) (s' : CmdStore),
      firstRunList f tU s cs = .ok s' → storeShape s' = storeShape s) := by
  intro f
  induction f with
  | zero =>
    refine ⟨?_, ?_, ?_⟩ <;> intro tU s c s' h <;>
      exact absurd h (by simp [cmdFirstRun, cmdFirstRunBehavior, firstRunList])
  | succ g ih =>
    obtain ⟨ih1, ih2, ih3⟩ := ih
    refine ⟨?_, ?_, ?_⟩
    · intro tU s c s' h
      simp only [cmdFirstRun] at h
      cases hg : storeGet s c with
      | error e => rw [hg] at h; exact absurd h (by simp)
      | ok n =>
        rw [hg, exbind_ok] at h
        by_cases hfl : n.first_run_occurred
        · rw [if_pos hfl] at h; cases h; rfl
        · rw [if_neg hfl] at h
          cases hb : cmdFirstRunBehavior g tU s c with
          | error e => rw [hb] at h; exact absurd h (by simp)
          | ok s1 =>
            rw [hb, exbind_ok] at h
            cases hg1 : storeGet s1 c with
            | error e => rw [hg1] at h; exact absurd h (by simp)
            | ok n1 =>
              rw [hg1, exbind_ok] at h
              cases h
              exact (storeShape_set s1 c n1
                { n1 with first_run_occurred := true }
                (storeGet_some hg1) rfl).trans (ih2 tU s c s1 hb)
    · intro tU s c s' h
      simp only [cmdFirstRunBehavior] at h
      cases hg : storeGet s c with
      | error e => rw [hg] at h; exact absurd h (by simp)
      | ok n =>
        rw [hg, exbind_ok] at h
        cases hk : n.kind with
        | base r =>
          rw [hk] at h
          have h' : (Except.ok s : Except PyErr CmdStore) = .ok s' := h
          cases h'; rfl
        | dynamic conds =>
          rw [hk] at h
          have h' : (Except.ok s : Except PyErr CmdStore) = .ok s' := h
          cases h'; rfl
        | delay d st =>
          rw [hk] at h
          have h' : (Except.ok (storeSet s c
              { n with kind := .delay d (some tU), first_run_occurred := true }) :
              Except PyErr CmdStore) = .ok s' := h
          cases h'
          exact storeShape_set s c n
            { n with kind := .delay d (some tU), first_run_occurred := true }
            (storeGet_some hg) (by rw [hk]; rfl)
        | parallel cs =>
          rw [hk] at h
          have h' : (do
              let s1 ← firstRunList g tU s cs
              let n1 ← storeGet s1 c
              Except.ok (storeSet s1 c { n1 with first_run_occurred := true })) =
              Except.ok s' := h
          cases hfr : firstRunList g tU s cs with
          | error e => rw [hfr] at h'; exact absurd h' (by simp)
          | ok s1 =>
            rw [hfr, exbind_ok] at h'
            cases hg1 : storeGet s1 c with
            | error e => rw [hg1] at h'; exact absurd h' (by simp)
            | ok n1 =>
              rw [hg1, exbind_ok] at h'
              cases h'
              exact (storeShape_set s1 c n1
                { n1 with first_run_occurred := true }
                (storeGet_some hg1) rfl).trans (ih3 tU s cs s1 hfr)
    · intro tU s cs s' h
      cases cs with
      | nil =>
        have h' : (Except.ok s : Except PyErr CmdStore) = .ok s' := h
        cases h'; rfl
      | cons c rest =>
        simp only [firstRunList] at h
        cases hf : cmdFirstRun g tU s c with
        | error e => rw [hf] at h; exact absurd h (by simp)
        | ok s1 =>
          rw [hf, exbind_ok] at h
          exact (ih3 tU s1 rest s' h).trans (ih1 tU s c s1 hf)

/-- The per-child rule of claim C4, written from the claim's words: per
child, if the child reports complete and has a successor (an `Option`-valued
next link, no attribute machinery), the child is replaced in place by its
successor and the successor's `first_run` runs immediately in the same tick;
otherwise the child's `periodic` runs.  Child completion, replacement,
`first_run` and `periodic` are the model's own operations, so this
definition differs from `parLoop` exactly where the claim's reading differs
from the code: it reads the successor as a field of the node instead of
through the Python attribute lookup that a `ParallelCommand` child would
make fail. -/
def claimParLoop : Nat → ℚ → CmdStore → Nat → Nat → Nat → Except PyErr CmdStore
  | 0, _, _, _, _, _ => .error .nonTermination
  | _ + 1, _, s, _, 0, _ => .ok s
  | fuel + 1, tU, s, pid, count + 1, i => do
    let n ← storeGet s pid
    match n.kind with
    | .parallel cs =>
      match cs[i]? with
      | none => .ok s
      | some c => do
        let r ← cmdIsComplete fuel tU s c
        let cn ← storeGet r.2 c
        match r.1, cn.next_command with
        | true, some nid => do
          let n1 ← storeGet r.2 pid
          match n1.kind with
          | .parallel cs1 => do
            let s2 := storeSet r.2 pid { n1 with kind := .parallel (cs1.set i nid) }
            let s3 ← cmdFirstRun fuel tU s2 nid
            claimParLoop fuel tU s3 pid count (i + 1)
          | _ => .error .danglingId
        | _, _ => do
          let s2 ← cmdPeriodic fuel tU r.2 c
          claimParLoop fuel tU s2 pid count (i + 1)
    | _ => .error .danglingId

/-- Every currently-held child reports complete, read sequentially left to
right with the store each completion query leaves behind (the fuel follows
`allCompleteLoop`'s discipline). -/
inductive EachComplete (tU : ℚ) : Nat → CmdStore → List Nat → Prop
  | nil (f : Nat) (s : CmdStore) : EachComplete tU (f + 1) s []
  | cons (f : Nat) (s : CmdStore) (c : Nat) (cs : List Nat) (s1 : CmdStore) :
      cmdIsComplete f tU s c = .ok (true, s1) →
      EachComplete tU f s1 cs → EachComplete tU (f + 1) s (c :: cs)

/-- `all(command.is_complete() for command in self.commands)` returns true
exactly when every child reports complete in sequence. -/
theorem allCompleteLoop_iff (tU : ℚ) : ∀ (f : Nat) (s : CmdStore)
    (cs : List Nat) (b : Bool) (s' : CmdStore),
    allCompleteLoop f tU s cs = .ok (b, s') →
    (b = true ↔ EachComplete tU f s cs) := by
  intro f
  induction f with
  | zero => intro s cs b s' h; exact absurd h (by simp [allCompleteLoop])
  | succ g ih =>
    intro s cs b s' h
    cases cs with
    | nil =>
      have h' : (Except.ok (true, s) : Except PyErr (Bool × CmdStore)) =
          .ok (b, s') := h
      cases h'
      exact iff_of_true rfl (EachComplete.nil g s)
    | cons c rest =>
      simp only [allCompleteLoop] at h
      cases hic : cmdIsComplete g tU s c with
      | error e => rw [hic] at h; exact absurd h (by simp)
      | ok r =>
        obtain ⟨b1, s1⟩ := r
        rw [hic, exbind_ok] at h
        cases b1 with
        | true =>
          rw [if_pos rfl] at h
          have hiff := ih s1 rest b s' h
          constructor
          · intro hb
            exact EachComplete.cons g s c rest s1 hic (hiff.mp hb)
          · intro he
            cases he with
            | cons _ _ _ _ s1' hic' hrest =>
              rw [hic] at hic'
              cases hic'
              exact hiff.mpr hrest
        | false =>
          rw [if_neg (by simp)] at h
          have h' : (Except.ok (false, s1) : Except PyErr (Bool × CmdStore)) =
              .ok (b, s') := h
          cases h'
          refine iff_of_false (by simp) ?_
          intro he
          cases he with
          | cons _ _ _ _ s1' hic' hrest =>
            rw [hic] at hic'
            cases hic'

/-- `is_complete` on a non-`ParallelCommand` node preserves the store's
shape (its only store effect is `DynamicCommand`'s `setNext`). -/
theorem isComplete_nonpar_shape (f : Nat) (tU : ℚ) (s : CmdStore) (c : Nat)
    (cn : CmdNode) (b : Bool) (s' : CmdStore)
    (hc : s[c]? = some cn) (hnp : cn.kind.isParallelKind = false)
    (h : cmdIsComplete (f + 1) tU s c = .ok (b, s')) :
    storeShape s' = storeShape s := by
  simp only [cmdIsComplete] at h
  have hg : storeGet s c = .ok cn := by unfold storeGet; rw [hc]
  rw [hg, exbind_ok] at h
  cases hk : cn.kind with
  | base r =>
    simp only [hk] at h
    cases h; rfl
  | dynamic conds =>
    simp only [hk] at h
    cases hw : (dynWalk conds).1 with
    | none =>
      simp only [hw] at h
      cases h; rfl
    | some nid =>
      simp only [hw] at h
      cases hs : setNext s c (.cmd nid) f with
      | error e => rw [hs] at h; exact absurd h (by simp)
      | ok s1 =>
        rw [hs, exbind_ok] at h
        cases h
        exact setNext_shape s c (.cmd nid) f _ hs
  | delay d st =>
    simp only [hk] at h
    cases st with
    | none => exact absurd h (by simp)
    | some st0 =>
      simp only [] at h
      cases h; rfl
  | parallel cs =>
    rw [hk] at hnp
    simp [CmdKind.isParallelKind] at hnp

/-- `periodic` on a non-`ParallelCommand` node preserves the store's shape
(a `base` script node rewrites only its own counter). -/
theorem periodic_nonpar_shape (f : Nat) (tU : ℚ) (s : CmdStore) (c : Nat)
    (cn : CmdNode) (s' : CmdStore)
    (hc : s[c]? = some cn) (hnp : cn.kind.isParallelKind = false)
    (h : cmdPeriodic (f + 1) tU s c = .ok s') :
    storeShape s' = storeShape s := by
  simp only [cmdPeriodic] at h
  have hg : storeGet s c = .ok cn := by unfold storeGet; rw [hc]
  rw [hg, exbind_ok] at h
  cases hk : cn.kind with
  | base r =>
    rw [hk] at h
    have h' : (Except.ok (storeSet s c { cn with kind := .base (r - 1) }) :
        Except PyErr CmdStore) = .ok s' := h
    cases h'
    exact storeShape_set s c cn { cn with kind := .base (r - 1) } hc
      (by rw [hk]; rfl)
  | dynamic conds =>
    rw [hk] at h
    have h' : (Except.ok s : Except PyErr CmdStore) = .ok s' := h
    cases h'; rfl
  | delay d st =>
    rw [hk] at h
    have h' : (Except.ok s : Except PyErr CmdStore) = .ok s' := h
    cases h'; rfl
  | parallel cs =>
    rw [hk] at hnp
    simp [CmdKind.isParallelKind] at hnp

/-- Shape-equal stores agree on `nonParAt`. -/
theorem nonParAt_of_shape {s s' : CmdStore}
    (h : storeShape s' = storeShape s) (c : Nat) :
    nonParAt s' c = nonParAt s c := by
  unfold nonParAt; rw [h]

/-- Shape-equal stores agree on `parAt`. -/
theorem parAt_of_shape {s s' : CmdStore}
    (h : storeShape s' = storeShape s) (pid : Nat) (cs : List Nat) :
    parAt s' pid cs = parAt s pid cs := by
  unfold parAt; rw [h]

/-- A non-parallel id differs from any id holding a `ParallelCommand`. -/
theorem nonParAt_ne_par {s : CmdStore} {c pid : Nat} {cs : List Nat}
    (hc : nonParAt s c = true) (hp : parAt s pid cs = true) : c ≠ pid := by
  intro he
  subst he
  unfold nonParAt at hc
  unfold parAt at hp
  rw [beq_iff_eq] at hc hp
  rw [hc] at hp
  simp at hp

/-- A `parAt` id is in range. -/
theorem parAt_lt {s : CmdStore} {pid : Nat} {cs : List Nat}
    (h : parAt s pid cs = true) : pid < s.length := by
  unfold parAt at h
  rw [beq_iff_eq] at h
  have := (List.getElem?_eq_some_iff.mp h).1
  simpa [storeShape] using this

/-- Shape of a store after rewriting one node's children list. -/
theorem storeShape_set_children (s : CmdStore) (pid : Nat) (n1 : CmdNode)
    (cs1 : List Nat) :
    storeShape (storeSet s pid { n1 with kind := .parallel cs1 }) =
      (storeShape s).set pid (some cs1) := by
  unfold storeShape storeSet
  rw [List.map_set]
  rfl

/-- Rewriting a parallel node's child list makes `parAt` see the new list. -/
theorem parAt_set_children (s : CmdStore) (pid : Nat) (n1 : CmdNode)
    (csX : List Nat) (h : pid < s.length) :
    parAt (storeSet s pid { n1 with kind := .parallel csX }) pid csX = true := by
  unfold parAt
  rw [storeShape_set_children,
    List.getElem?_set_self (by simpa [storeShape] using h)]
  simp

/-- Rewriting a parallel node's child list leaves every other id's
`nonParAt` unchanged. -/
theorem nonParAt_set_children (s : CmdStore) (pid c : Nat) (n1 : CmdNode)
    (csX : List Nat) (hne : c ≠ pid) :
    nonParAt (storeSet s pid { n1 with kind := .parallel csX }) c =
      nonParAt s c := by
  unfold nonParAt
  rw [storeShape_set_children, List.getElem?_set_ne (Ne.symm hne)]

/-- The code's parallel loop and the claim's parallel loop agree as long as
the parallel node's currently-pending children (indices `≥ i`) all own the
`next_command` attribute, i.e. are not themselves `ParallelCommand`s. -/
theorem parLoop_eq_claim (tU : ℚ) : ∀ (f : Nat) (s : CmdStore) (pid : Nat)
    (count i : Nat) (cs : List Nat),
    parAt s pid cs = true →
    (∀ k, i ≤ k → ∀ c, cs[k]? = some c → nonParAt s c = true) →
    parLoop f tU s pid count i = claimParLoop f tU s pid count i := by
  intro f
  induction f with
  | zero => intro s pid count i cs _ _; rfl
  | succ g ih =>
    intro s pid count i cs hpar hinv
    cases count with
    | zero => rfl
    | succ cnt =>
      obtain ⟨n, hpid, hkind⟩ := (parAt_iff _ _ _).mp hpar
      have hg : storeGet s pid = .ok n := by unfold storeGet; rw [hpid]
      simp only [parLoop, claimParLoop, hg, exbind_ok, hkind]
      cases hci : cs[i]? with
      | none => simp only [hci]
      | some c =>
        simp only [hci]
        cases hic : cmdIsComplete g tU s c with
        | error e => simp only [hic, exbind_error]
        | ok r =>
          obtain ⟨b, s1⟩ := r
          simp only [hic, exbind_ok]
          have hnp : nonParAt s c = true := hinv i (le_refl i) c hci
          obtain ⟨cn0, hc0, hnp0⟩ := (nonParAt_iff _ _).mp hnp
          have hshape1 : storeShape s1 = storeShape s := by
            cases g with
            | zero => exact absurd hic (by simp [cmdIsComplete])
            | succ gg =>
              exact isComplete_nonpar_shape gg tU s c cn0 b s1 hc0 hnp0 hic
          have hnp1 : nonParAt s1 c = true := by
            rw [nonParAt_of_shape hshape1]; exact hnp
          obtain ⟨cn1, hc1, hnp1k⟩ := (nonParAt_iff _ _).mp hnp1
          have hg1 : storeGet s1 c = .ok cn1 := by unfold storeGet; rw [hc1]
          have hna : getNextAttr s1 c = .ok cn1.next_command :=
            getNextAttr_eq hg1 hnp1k
          have hpar1 : parAt s1 pid cs = true := by
            rw [parAt_of_shape hshape1]; exact hpar
          have hperiodicStep : (do
              let s2 ← cmdPeriodic g tU s1 c
              parLoop g tU s2 pid cnt (i + 1)) = (do
              let s2 ← cmdPeriodic g tU s1 c
              claimParLoop g tU s2 pid cnt (i + 1)) := by
            cases hp2 : cmdPeriodic g tU s1 c with
            | error e => simp only [exbind_error]
            | ok s2 =>
              simp only [exbind_ok]
              have hshape2 : storeShape s2 = storeShape s1 := by
                cases g with
                | zero => exact absurd hp2 (by simp [cmdPeriodic])
                | succ gg =>
                  exact periodic_nonpar_shape gg tU s1 c cn1 s2 hc1 hnp1k hp2
              refine ih s2 pid cnt (i + 1) cs ?_ ?_
              · rw [parAt_of_shape hshape2]; exact hpar1
              · intro k hk c' hc'
                rw [nonParAt_of_shape hshape2, nonParAt_of_shape hshape1]
                exact hinv k (Nat.le_of_succ_le hk) c' hc'
          rw [hg1, exbind_ok]
          cases b with
          | false =>
            simp only [Bool.false_eq_true, if_false]
            exact hperiodicStep
          | true =>
            simp only [if_true]
            rw [hna, exbind_ok]
            cases hnxt : cn1.next_command with
            | none =>
              simp only [hnxt]
              exact hperiodicStep
            | some nid =>
              simp only [hnxt]
              obtain ⟨n1, hpid1, hkind1⟩ := (parAt_iff _ _ _).mp hpar1
              have hg1p : storeGet s1 pid = .ok n1 := by
                unfold storeGet; rw [hpid1]
              simp only [hg1p, exbind_ok, hkind1]
              cases hfr : cmdFirstRun g tU
                  (storeSet s1 pid { n1 with kind := .parallel (cs.set i nid) })
                  nid with
              | error e => simp only [hfr, exbind_error]
              | ok s3 =>
                simp only [hfr, exbind_ok]
                have hshape3 : storeShape s3 = storeShape
                    (storeSet s1 pid { n1 with kind := .parallel (cs.set i nid) }) :=
                  (firstRun_shape g).1 tU _ nid s3 hfr
                refine ih s3 pid cnt (i + 1) (cs.set i nid) ?_ ?_
                · rw [parAt_of_shape hshape3]
                  exact parAt_set_children s1 pid n1 (cs.set i nid)
                    (parAt_lt hpar1)
                · intro k hk c' hc'
                  rw [List.getElem?_set_ne (by omega)] at hc'
                  have hnpc' : nonParAt s c' = true :=
                    hinv k (Nat.le_of_succ_le hk) c' hc'
                  have hnpc1 : nonParAt s1 c' = true := by
                    rw [nonParAt_of_shape hshape1]; exact hnpc'
                  rw [nonParAt_of_shape hshape3,
                    nonParAt_set_children s1 pid c' n1 (cs.set i nid)
                      (nonParAt_ne_par hnpc1 hpar1)]
                  exact hnpc1

/-- C4 (amended): for every `ParallelCommand` whose currently-held children
all own the `next_command` attribute — that is, none of them is itself a
`ParallelCommand`, whose constructor skips `Command.__init__` —
`periodic()` behaves per child exactly as the claim states (the code's loop
equals the claim-side loop `claimParLoop`: a complete child with a successor
is replaced in place and the successor's `first_run` runs in the same tick,
any other child just runs `periodic`), and `is_complete()` returns true if
and only if every currently-held child reports complete. -/
theorem parallel_periodic_and_complete (f : Nat) (tU : ℚ) (s : CmdStore)
    (pid : Nat) (n : CmdNode) (cs : List Nat)
    (hget : s[pid]? = some n) (hkind : n.kind = .parallel cs)
    (hch : ∀ c ∈ cs, nonParAt s c = true) :
    cmdPeriodic (f + 1) tU s pid = claimParLoop f tU s pid cs.length 0 ∧
    (∀ b s', cmdIsComplete (f + 1) tU s pid = .ok (b, s') →
      (b = true ↔ EachComplete tU f s cs)) := by
  have hg : storeGet s pid = .ok n := by unfold storeGet; rw [hget]
  have hpar : parAt s pid cs = true := (parAt_iff _ _ _).mpr ⟨n, hget, hkind⟩
  constructor
  · have hstep : cmdPeriodic (f + 1) tU s pid = parLoop f tU s pid cs.length 0 := by
      simp only [cmdPeriodic, hg, exbind_ok, hkind]
    rw [hstep]
    refine parLoop_eq_claim tU f s pid cs.length 0 cs hpar ?_
    intro k _ c hc
    obtain ⟨hl, rfl⟩ := List.getElem?_eq_some_iff.mp hc
    exact hch _ (List.getElem_mem hl)
  · intro b s' h
    have h2 : allCompleteLoop f tU s cs = .ok (b, s') := by
      simpa only [cmdIsComplete, hg, exbind_ok, hkind] using h
    exact allCompleteLoop_iff tU f s cs b s' h2

/-- Witness for C4: a `ParallelCommand` (id 0) holding a complete child (id
1, with successor 3) and a running child (id 2). -/
theorem parallel_periodic_and_complete_witness :
    (([⟨none, false, .parallel [1, 2]⟩, ⟨some 3, true, .base 0⟩,
       ⟨none, true, .base 2⟩, ⟨none, false, .base 1⟩] : CmdStore)[0]? =
        some ⟨none, false, .parallel [1, 2]⟩ ∧
      ∀ c ∈ ([1, 2] : List Nat),
        nonParAt [⟨none, false, .parallel [1, 2]⟩, ⟨some 3, true, .base 0⟩,
                  ⟨none, true, .base 2⟩, ⟨none, false, .base 1⟩] c = true) ∧
    (cmdPeriodic 6 0 [⟨none, false, .parallel [1, 2]⟩, ⟨some 3, true, .base 0⟩,
        ⟨none, true, .base 2⟩, ⟨none, false, .base 1⟩] 0 =
      claimParLoop 5 0 [⟨none, false, .parallel [1, 2]⟩, ⟨some 3, true, .base 0⟩,
        ⟨none, true, .base 2⟩, ⟨none, false, .base 1⟩] 0 2 0 ∧
    (∀ b s', cmdIsComplete 6 0 [⟨none, false, .parallel [1, 2]⟩,
        ⟨some 3, true, .base 0⟩, ⟨none, true, .base 2⟩,
        ⟨none, false, .base 1⟩] 0 = .ok (b, s') →
      (b = true ↔ EachComplete 0 5 [⟨none, false, .parallel [1, 2]⟩,
        ⟨some 3, true, .base 0⟩, ⟨none, true, .base 2⟩,
        ⟨none, false, .base 1⟩] [1, 2]))) :=
  ⟨⟨rfl, by decide⟩,
    parallel_periodic_and_complete 5 0
      [⟨none, false, .parallel [1, 2]⟩, ⟨some 3, true, .base 0⟩,
       ⟨none, true, .base 2⟩, ⟨none, false, .base 1⟩] 0
      ⟨none, false, .parallel [1, 2]⟩ [1, 2] rfl rfl (by decide)⟩
